import Mathlib

/-!
# Orthogonal-projection calculator (`beregner.cpp`)

A shallow embedding of `src/beregner.cpp` and the properties its specification states.

* Bounding boxes (`BoundingBox`, `parseBBOX`, `isBBOXWithin`) hold finite doubles that are
  only parsed and compared; they are embedded as exact rationals.
* The per-pixel arithmetic of `calculateOrthogonalProjection` is embedded over `Dbl`: a
  double is a NaN, a signed infinity, or a finite value with a sign bit and an exact real
  magnitude. Signed zeros, overflow, infinities and NaN follow IEEE 754; the rounding of
  finite results is not modelled.
-/

namespace Beregner

/-! ## Bounding boxes -/

/-- The `BoundingBox` struct (lines 10-15): four `double` fields, in declaration order. -/
structure BoundingBox where
  minLon : ℚ
  minLat : ℚ
  maxLon : ℚ
  maxLat : ℚ
  deriving DecidableEq

/-- The error kind the specification names for a malformed bounding-box text. -/
inductive FormatError where
  | notFourTokens
  deriving DecidableEq

/-- The characters `isspace` accepts in the C locale; `%lf` skips them before a number. -/
def isSpace (c : Char) : Bool :=
  c.toNat = 32 || (9 ≤ c.toNat && c.toNat ≤ 13)

/-- Leading white space is dropped. -/
def skipSpace : List Char → List Char
  | [] => []
  | c :: cs => if isSpace c then skipSpace cs else c :: cs

/-- The longest run of decimal digits at the front, as digit values, and what follows. -/
def takeDigits : List Char → List Nat × List Char
  | [] => ([], [])
  | c :: cs =>
    if 48 ≤ c.toNat ∧ c.toNat ≤ 57 then
      ((c.toNat - 48) :: (takeDigits cs).1, (takeDigits cs).2)
    else ([], c :: cs)

/-- The number a digit sequence writes in base ten. -/
def digitsToNat (ds : List Nat) : Nat :=
  ds.foldl (fun acc d => 10 * acc + d) 0

/-- An optional sign character: whether it was a minus, and what follows. -/
def takeSign : List Char → Bool × List Char
  | [] => (false, [])
  | c :: cs => if c = '-' then (true, cs) else if c = '+' then (false, cs) else (false, c :: cs)

/-- An optional exponent part `e[+-]digits`. As glibc's `sscanf` does, the letter and a
sign after it are consumed even when no digit follows; the exponent is then `0`. -/
def scanExponent : List Char → Int × List Char
  | [] => (0, [])
  | c :: cs =>
    if c = 'e' ∨ c = 'E' then
      let sr := takeSign cs
      let dr := takeDigits sr.2
      if dr.1.isEmpty then (0, sr.2)
      else (if sr.1 then -(digitsToNat dr.1 : Int) else (digitsToNat dr.1 : Int), dr.2)
    else (0, c :: cs)

/-- An unsigned decimal floating constant: digits with an optional fraction (at least one
digit in all), then an optional exponent. The value is exact. -/
def scanDecimal (cs : List Char) : Option (ℚ × List Char) :=
  let ip := takeDigits cs
  let fp : List Nat × List Char :=
    match ip.2 with
    | c :: r => if c = '.' then takeDigits r else ([], c :: r)
    | [] => ([], [])
  if ip.1.isEmpty && fp.1.isEmpty then none
  else
    let ex := scanExponent fp.2
    some ((digitsToNat (ip.1 ++ fp.1) : ℚ) / 10 ^ fp.1.length * 10 ^ ex.1, ex.2)

/-- One `%lf` directive: skip white space, read a sign and a decimal constant. `none` is a
matching failure. Hexadecimal constants, `inf` and `nan` are outside this model. -/
def scanLf (cs : List Char) : Option (ℚ × List Char) :=
  let sr := takeSign (skipSpace cs)
  match scanDecimal sr.2 with
  | none => none
  | some (v, rest) => some (if sr.1 then -v else v, rest)

/-- The directives `%lf,%lf,...` with `n` conversions: the values converted, in order, up to
the first directive that fails to match. -/
def scanFields : Nat → List Char → List ℚ
  | 0, _ => []
  | n + 1, cs =>
    match scanLf cs with
    | none => []
    | some (v, rest) =>
      v :: (match n, rest with
        | 0, _ => []
        | _ + 1, [] => []
        | _ + 1, c :: rest1 => if c = ',' then scanFields n rest1 else [])

/-- The call `sscanf(s.c_str(), "%lf,%lf,%lf,%lf", ...)`: the values it stores through its
four pointers, in order. The C string ends at the first NUL. -/
def sscanfLf4 (s : String) : List ℚ :=
  scanFields 4 (s.toList.takeWhile (fun c => c.toNat ≠ 0))

/-- The function `parseBBOX` (lines 18-22). The local `bbox` is not initialised, so its
indeterminate contents are the parameter `uninit`; `sscanf` overwrites the fields it
converts and its return value is ignored. The function has no failing path. -/
def parseBBOX (uninit : BoundingBox) (bboxStr : String) : Except FormatError BoundingBox :=
  match sscanfLf4 bboxStr with
  | [a] => .ok { uninit with minLon := a }
  | [a, b] => .ok { uninit with minLon := a, minLat := b }
  | [a, b, c] => .ok { uninit with minLon := a, minLat := b, maxLon := c }
  | [a, b, c, d] => .ok { minLon := a, minLat := b, maxLon := c, maxLat := d }
  | _ => .ok uninit

/-- The function `isBBOXWithin` (lines 25-30). -/
def isBBOXWithin (userBBOX allowedBBOX : BoundingBox) : Bool :=
  decide (userBBOX.minLon ≥ allowedBBOX.minLon) &&
  decide (userBBOX.maxLon ≤ allowedBBOX.maxLon) &&
  decide (userBBOX.minLat ≥ allowedBBOX.minLat) &&
  decide (userBBOX.maxLat ≤ allowedBBOX.maxLat)

/-! ## Doubles

`Dbl` is a `double` seen as IEEE 754 sees it: a NaN, an infinity with its sign, or a finite
value with a sign bit and a magnitude, so that zero has two signs. Overflow to infinity and
the propagation of infinities and NaN are modelled. The magnitude of a finite value is an
exact non-negative real: the rounding of a finite result to the nearest double, gradual
underflow included, is outside the model. -/

/-- A double: NaN, `±∞`, or a finite value with sign bit and exact magnitude.
`fin false 0` is `+0.0`, `fin true 0` is `-0.0`. -/
inductive Dbl where
  | nan
  | inf (neg : Bool)
  | fin (neg : Bool) (mag : NNReal)

namespace Dbl

/-- The real number with sign bit `neg` and magnitude `mag`. -/
def signed (neg : Bool) (mag : NNReal) : ℝ := if neg then -(mag : ℝ) else (mag : ℝ)

/-- The real number a finite double stands for (both zeros stand for `0`); `none` for NaN
and the infinities. -/
def toReal? : Dbl → Option ℝ
  | nan => none
  | inf _ => none
  | fin neg mag => some (signed neg mag)

/-- The least magnitude that round-to-nearest takes to infinity: `DBL_MAX` plus half a
unit in its last place, `2 ^ 1024 - 2 ^ 970`. -/
def overflowAt : ℝ := 2 ^ 1024 - 2 ^ 970

/-- The double of a result with sign `neg` and exact magnitude `mag`: infinite when the
magnitude overflows. -/
noncomputable def pack (neg : Bool) (mag : NNReal) : Dbl :=
  if overflowAt ≤ (mag : ℝ) then inf neg else fin neg mag

/-- The double of an exact real result `r`; `zeroNeg` is the sign bit given to an exact
zero. -/
noncomputable def round (zeroNeg : Bool) (r : ℝ) : Dbl :=
  if r = 0 then fin zeroNeg 0 else pack (decide (r < 0)) (Real.nnabs r)

/-- A non-negative literal such as `180.0`. -/
def lit (m : NNReal) : Dbl := fin false m

/-- Unary minus flips the sign bit; NaN stays NaN. -/
def negate : Dbl → Dbl
  | nan => nan
  | inf neg => inf (!neg)
  | fin neg mag => fin (!neg) mag

/-- Multiplication: the sign is the exclusive or of the signs; `∞ · 0` is NaN. -/
noncomputable def mul : Dbl → Dbl → Dbl
  | nan, _ => nan
  | _, nan => nan
  | inf n1, inf n2 => inf (xor n1 n2)
  | inf n1, fin n2 m2 => if m2 = 0 then nan else inf (xor n1 n2)
  | fin n1 m1, inf n2 => if m1 = 0 then nan else inf (xor n1 n2)
  | fin n1 m1, fin n2 m2 => pack (xor n1 n2) (m1 * m2)

/-- Division: the sign is the exclusive or of the signs; `∞ / ∞` and `0 / 0` are NaN, a
finite value over an infinity is a zero, a non-zero value over a zero is an infinity. -/
noncomputable def div : Dbl → Dbl → Dbl
  | nan, _ => nan
  | _, nan => nan
  | inf _, inf _ => nan
  | inf n1, fin n2 _ => inf (xor n1 n2)
  | fin n1 _, inf n2 => fin (xor n1 n2) 0
  | fin n1 m1, fin n2 m2 =>
    if m2 = 0 then (if m1 = 0 then nan else inf (xor n1 n2)) else pack (xor n1 n2) (m1 / m2)

/-- Addition, round to nearest: `∞ + (-∞)` is NaN; an exact zero sum of finite terms is
`-0.0` only when both terms are `-0.0`. -/
noncomputable def add : Dbl → Dbl → Dbl
  | nan, _ => nan
  | _, nan => nan
  | inf n1, inf n2 => if n1 = n2 then inf n1 else nan
  | inf n1, fin _ _ => inf n1
  | fin _ _, inf n2 => inf n2
  | fin n1 m1, fin n2 m2 => round (n1 && n2) (signed n1 m1 + signed n2 m2)

/-- The function `std::sqrt`: NaN below zero, `sqrt(-0.0) = -0.0`, `sqrt(+∞) = +∞`. -/
noncomputable def sqrt : Dbl → Dbl
  | nan => nan
  | inf neg => if neg then nan else inf false
  | fin neg mag => if neg = true ∧ mag ≠ 0 then nan else fin neg (NNReal.sqrt mag)

/-- The function `std::tan` as the exact real tangent of a finite argument: odd, with
`tan(±0) = ±0`, a zero result taking the sign of the argument; NaN at an infinity or NaN.
The result is finite, as `std::tan` of a finite double is. At the poles of the real tangent,
which no double is, the value is `0` by convention. -/
noncomputable def tan : Dbl → Dbl
  | nan => nan
  | inf _ => nan
  | fin neg mag =>
    fin (if Real.tan (signed neg mag) = 0 then neg else decide (Real.tan (signed neg mag) < 0))
      (Real.nnabs (Real.tan (signed neg mag)))

/-- The function `std::atan`: odd, with `atan(±0) = ±0` and `atan(±∞) = ±π/2`. -/
noncomputable def atan : Dbl → Dbl
  | nan => nan
  | inf neg => fin neg (NNReal.pi / 2)
  | fin neg mag => fin neg (Real.toNNReal (Real.arctan mag))

/-- The function `std::atan2(y, x)` (C11 F.10.1.4): NaN when an argument is NaN; otherwise
the result has the sign of `y`. For finite arguments: for `y = ±0` it is `±π` when `x` is
negative or `-0.0` and `±0` otherwise; for `x = ±0` and `y` non-zero it is `±π/2`; otherwise
its magnitude is `arctan(|y|/|x|)` for positive `x` and `π - arctan(|y|/|x|)` for negative
`x`. For finite `y` it is `±0` at `x = +∞` and `±π` at `x = -∞`; for infinite `y` it is
`±π/2` at finite `x`, `±π/4` at `x = +∞` and `±3π/4` at `x = -∞`. -/
noncomputable def atan2 : Dbl → Dbl → Dbl
  | nan, _ => nan
  | _, nan => nan
  | fin ny my, fin nx mx =>
    if my = 0 then fin ny (if nx then NNReal.pi else 0)
    else if mx = 0 then fin ny (NNReal.pi / 2)
    else if nx then fin ny (Real.toNNReal (Real.pi - Real.arctan (my / mx)))
    else fin ny (Real.toNNReal (Real.arctan (my / mx)))
  | fin ny _, inf nx => fin ny (if nx then NNReal.pi else 0)
  | inf ny, fin _ _ => fin ny (NNReal.pi / 2)
  | inf ny, inf nx => fin ny (if nx then 3 * NNReal.pi / 4 else NNReal.pi / 4)

/-- The comparison `a < b` of doubles: false when an argument is NaN; both zeros are
equal. -/
def lt : Dbl → Dbl → Prop
  | nan, _ => False
  | _, nan => False
  | inf n1, inf n2 => n1 = true ∧ n2 = false
  | inf n1, fin _ _ => n1 = true
  | fin _ _, inf n2 => n2 = false
  | fin n1 m1, fin n2 m2 => signed n1 m1 < signed n2 m2

noncomputable instance : Mul Dbl := ⟨mul⟩
noncomputable instance : Div Dbl := ⟨div⟩
noncomputable instance : Add Dbl := ⟨add⟩
instance : Neg Dbl := ⟨negate⟩
noncomputable instance (a b : Dbl) : Decidable (lt a b) := Classical.propDecidable _

end Dbl

/-- The constant `M_PI`, taken as exactly `π`. -/
noncomputable def M_PI : Dbl := Dbl.lit NNReal.pi

/-! ## The per-pixel computation -/

/-- The local variables of one iteration of the loop body (lines 36-55). `normalX0`,
`normalY0`, `normalZ0` are the normal as lines 44-46 set it, `normalX`, `normalY`,
`normalZ` after the division by `length` (lines 48-50); `orientation0` is the orientation
as line 54 sets it and `orientation` after line 55. -/
structure PixelLocals where
  slope : Dbl
  slopeRad : Dbl
  dzdx : Dbl
  dzdy : Dbl
  normalX0 : Dbl
  normalY0 : Dbl
  normalZ0 : Dbl
  length : Dbl
  normalX : Dbl
  normalY : Dbl
  normalZ : Dbl
  slopeAngle : Dbl
  orientation0 : Dbl
  orientation : Dbl

/-- The loop body of `calculateOrthogonalProjection` (lines 36-55) for one slope value,
with the library function `std::tan` as the parameter `tanFn`. -/
noncomputable def pixelLocalsWith (tanFn : Dbl → Dbl) (slope : Dbl) : PixelLocals :=
  let slopeRad := slope * M_PI / Dbl.lit 180
  let dzdx := tanFn slopeRad
  let dzdy := tanFn slopeRad
  let normalX0 := -dzdx
  let normalY0 := -dzdy
  let normalZ0 := Dbl.lit 1
  let length := Dbl.sqrt (normalX0 * normalX0 + normalY0 * normalY0 + normalZ0 * normalZ0)
  let normalX := normalX0 / length
  let normalY := normalY0 / length
  let normalZ := normalZ0 / length
  let slopeAngle :=
    Dbl.atan (Dbl.sqrt (normalX * normalX + normalY * normalY)) * Dbl.lit 180 / M_PI
  let orientation0 := Dbl.atan2 normalY normalX * Dbl.lit 180 / M_PI
  let orientation :=
    if Dbl.lt orientation0 (Dbl.lit 0) then orientation0 + Dbl.lit 360 else orientation0
  { slope := slope, slopeRad := slopeRad, dzdx := dzdx, dzdy := dzdy,
    normalX0 := normalX0, normalY0 := normalY0, normalZ0 := normalZ0, length := length,
    normalX := normalX, normalY := normalY, normalZ := normalZ,
    slopeAngle := slopeAngle, orientation0 := orientation0, orientation := orientation }

/-- The loop body of `calculateOrthogonalProjection` (lines 36-55) for one slope value,
with the exact tangent for `std::tan`. -/
noncomputable def pixelLocals (slope : Dbl) : PixelLocals := pixelLocalsWith Dbl.tan slope

/-- One line written to `std::cout` (lines 58-60): the values it prints, in order. -/
structure PixelRecord where
  x : Int
  y : Int
  slope : Dbl
  slopeAngle : Dbl
  orientation : Dbl

/-- The value an `int` expression takes when its exact result is `z`: two's complement
wrap-around at 32 bits. -/
def wrapInt32 (z : Int) : Int := (z + 2 ^ 31) % 2 ^ 32 - 2 ^ 31

/-- The record the loop body emits at column `x` of row `y`: it reads
`slopeData[y * width + x]`, the index being computed in `int`. -/
noncomputable def pixelRecord (slopeData : Int → Dbl) (width : Int) (y x : Nat) : PixelRecord :=
  let slope := slopeData (wrapInt32 (wrapInt32 ((y : Int) * width) + (x : Int)))
  { x := x, y := y, slope := slope,
    slopeAngle := (pixelLocals slope).slopeAngle,
    orientation := (pixelLocals slope).orientation }

/-- The function `calculateOrthogonalProjection` (lines 33-63): the records it writes, in
the order it writes them. `slopeData` is the memory the pointer addresses, by index; the
loops run `y` over `0 ..< height` and, inside, `x` over `0 ..< width`, and run no iteration
for a bound that is not positive. -/
noncomputable def calculateOrthogonalProjection (slopeData : Int → Dbl) (width height : Int) :
    List PixelRecord :=
  (List.range height.toNat).flatMap fun y =>
    (List.range width.toNat).map fun x => pixelRecord slopeData width y x

/-! ## The program -/

/-- What `GDALOpen` and `RasterIO` hand to the program: the size of band 1 and the buffer
`pSlopeData` once it is filled. -/
structure Raster where
  nXSize : Int
  nYSize : Int
  data : Int → Dbl

/-- What the surroundings of one run decide: the indeterminate contents of the local of
`parseBBOX`, the two statuses `std::system` returns, and the dataset `GDALOpen` yields
(`none` for `nullptr`) with the text of `CPLGetLastErrorMsg`. -/
structure World where
  uninit : BoundingBox
  translateResult : Int
  slopeResult : Int
  dataset : Option Raster
  lastErrorMsg : String

/-- An effect of `main` that is visible outside the process. -/
inductive Event where
  | gdalAllRegister
  | cerr (line : String)
  | cout (line : String)
  | system (command : String)
  | gdalOpen (file : String)
  | pixel (record : PixelRecord)
  | gdalClose

/-- The allowed region `allowedBBOX` of `main` (line 76). -/
def allowedBBOX : BoundingBox :=
  { minLon := 8.00830949937517, minLat := 54.4354651516217,
    maxLon := 15.5979112056959, maxLat := 57.7690657013977 }

/-- The request text `bboxStr` of `main` (line 71). -/
def bboxStr : String := "10.0,54.0,15.0,57.0"

/-- The function `main` (lines 65-129): its exit status and its effects, in order. -/
noncomputable def main (w : World) : Except FormatError (Int × List Event) := do
  let wcsURL := "https://api.dataforsyningen.dk/dhm_wcs_DAF?service=WCS"
  let wcsLayer := "DHM_Overflade"
  let token := "1d758ff07d7b45cc764053b5b585806c"
  let inputFilename := "input_dem.tif"
  let slopeFilename := "output_slope.tif"
  let ev0 := [Event.gdalAllRegister]
  let userBBOX ← parseBBOX w.uninit bboxStr
  if !isBBOXWithin userBBOX allowedBBOX then
    return (1, ev0 ++ [Event.cerr "Error: The specified BBOX is out of the allowed range."])
  let url := wcsURL ++ "&REQUEST=GetCoverage&VERSION=2.0.1&COVERAGEID=" ++ wcsLayer ++
    "&FORMAT=image/tiff&SUBSET=x(" ++ bboxStr ++ ")&SUBSET=y(" ++ bboxStr ++ ")&token=" ++ token
  let translateCommand := "gdal_translate \"" ++ url ++ "\" " ++ inputFilename
  let ev1 := ev0 ++ [Event.cout ("Executing: " ++ translateCommand), Event.system translateCommand]
  if w.translateResult ≠ 0 then
    return (w.translateResult, ev1 ++
      [Event.cerr ("gdal_translate failed with error code: " ++ toString w.translateResult)])
  let slopeCommand := "gdaldem slope " ++ inputFilename ++ " " ++ slopeFilename
  let ev2 := ev1 ++ [Event.cout ("Executing: " ++ slopeCommand), Event.system slopeCommand]
  if w.slopeResult ≠ 0 then
    return (w.slopeResult, ev2 ++
      [Event.cerr ("gdaldem slope failed with error code: " ++ toString w.slopeResult)])
  let ev3 := ev2 ++ [Event.gdalOpen slopeFilename]
  match w.dataset with
  | none => return (1, ev3 ++ [Event.cerr ("GDALOpen failed - " ++ w.lastErrorMsg)])
  | some r =>
    let pixels := (calculateOrthogonalProjection r.data r.nXSize r.nYSize).map Event.pixel
    return (0, ev3 ++ pixels ++ [Event.gdalClose,
      Event.cout ("Slope calculation completed and saved to " ++ slopeFilename)])

/-- A slope buffer used to instantiate the traversal theorems: 45 degrees at index
`2147483648`, `+0.0` everywhere else. -/
noncomputable def spikeGrid : Int → Dbl :=
  fun i => if i = 2147483648 then Dbl.lit 45 else Dbl.lit 0

/-! ## Bounding-box properties -/

/-- Claim C1. `isBBOXWithin candidate allowed` is true exactly when the four inclusive
comparisons hold; hence a box is within itself, and a box whose `maxLon` is the allowed
`maxLon` plus a positive amount is rejected. -/
theorem isBBOXWithin_iff_inclusive (candidate allowed : BoundingBox) (eps : ℚ) :
    (isBBOXWithin candidate allowed = true ↔
      candidate.minLon ≥ allowed.minLon ∧ candidate.maxLon ≤ allowed.maxLon ∧
      candidate.minLat ≥ allowed.minLat ∧ candidate.maxLat ≤ allowed.maxLat) ∧
    isBBOXWithin allowed allowed = true ∧
    (0 < eps →
      isBBOXWithin { candidate with maxLon := allowed.maxLon + eps } allowed = false) := by
  refine ⟨?_, ?_, ?_⟩
  · simp [isBBOXWithin, and_assoc]
  · simp [isBBOXWithin]
  · intro h
    have : ¬ allowed.maxLon + eps ≤ allowed.maxLon := by linarith
    simp [isBBOXWithin, this]

/-- Witness for claim C1, at the allowed region of `main`: the region itself is accepted and the
region widened by `1/1000` at `maxLon` is rejected. -/
theorem isBBOXWithin_iff_inclusive_witness :
    isBBOXWithin allowedBBOX allowedBBOX = true ∧
    isBBOXWithin { allowedBBOX with maxLon := allowedBBOX.maxLon + 1 / 1000 } allowedBBOX
      = false :=
  ⟨(isBBOXWithin_iff_inclusive allowedBBOX allowedBBOX (1 / 1000)).2.1,
   (isBBOXWithin_iff_inclusive allowedBBOX allowedBBOX (1 / 1000)).2.2 (by norm_num)⟩

/-- The scan of the request text of `main` converts four values. -/
theorem sscanfLf4_bboxStr : sscanfLf4 bboxStr = [10, 54, 15, 57] := by
  simp [sscanfLf4, bboxStr, scanFields, scanLf, scanDecimal, takeDigits, takeSign, skipSpace,
    isSpace, scanExponent, digitsToNat]
  norm_num

/-- The scan converts at most four values. -/
theorem sscanfLf4_length_le (s : String) : (sscanfLf4 s).length ≤ 4 := by
  unfold sscanfLf4
  generalize s.toList.takeWhile (fun c => c.toNat ≠ 0) = cs
  simp only [scanFields]
  repeat' (first | split | simp)

/-- Counterexample to claim C7 as stated. For the text `abc` no token is read, and for `10.0,54.0` only
two are; `parseBBOX` still returns a box in both cases (the fields not read keep the
indeterminate contents, here `1, 2, 3, 4`) and does not fail with a `FormatError`. -/
theorem parseBBOX_returns_without_four_tokens :
    sscanfLf4 "abc" = [] ∧
    parseBBOX ⟨1, 2, 3, 4⟩ "abc" = Except.ok ⟨1, 2, 3, 4⟩ ∧
    sscanfLf4 "10.0,54.0" = [10, 54] ∧
    parseBBOX ⟨1, 2, 3, 4⟩ "10.0,54.0" = Except.ok ⟨10, 54, 3, 4⟩ ∧
    (∀ e, parseBBOX ⟨1, 2, 3, 4⟩ "abc" ≠ Except.error e) ∧
    (∀ e, parseBBOX ⟨1, 2, 3, 4⟩ "10.0,54.0" ≠ Except.error e) := by
  have h1 : sscanfLf4 "abc" = [] := by decide
  have h2 : sscanfLf4 "10.0,54.0" = [10, 54] := by
    simp [sscanfLf4, scanFields, scanLf, scanDecimal, takeDigits, takeSign, skipSpace,
      isSpace, scanExponent, digitsToNat]
    norm_num
  refine ⟨h1, ?_, h2, ?_, ?_, ?_⟩
  · simp [parseBBOX, h1]
  · simp [parseBBOX, h2]
  · intro e; simp [parseBBOX, h1]
  · intro e; simp [parseBBOX, h2]

/-- Claim C7, amended. `parseBBOX` never fails: for every text it returns a box. The scan
converts at most four values; the fields for which a value was converted hold those values
in the order `minLon`, `minLat`, `maxLon`, `maxLat`, and the other fields keep the
indeterminate contents of the uninitialised local. -/
theorem parseBBOX_always_returns (uninit : BoundingBox) (s : String) :
    ∃ box, parseBBOX uninit s = Except.ok box ∧
      (sscanfLf4 s).length ≤ 4 ∧
      (∀ a b c d, sscanfLf4 s = [a, b, c, d] → box = ⟨a, b, c, d⟩) ∧
      (∀ a b c, sscanfLf4 s = [a, b, c] → box = ⟨a, b, c, uninit.maxLat⟩) ∧
      (∀ a b, sscanfLf4 s = [a, b] → box = ⟨a, b, uninit.maxLon, uninit.maxLat⟩) ∧
      (∀ a, sscanfLf4 s = [a] → box = ⟨a, uninit.minLat, uninit.maxLon, uninit.maxLat⟩) ∧
      (sscanfLf4 s = [] → box = uninit) := by
  have hlen := sscanfLf4_length_le s
  unfold parseBBOX
  split <;> rename_i heq <;> refine ⟨_, rfl, hlen, ?_⟩ <;> simp_all

/-- Claim C8. The request text of `main` parses to the box `(10, 54, 15, 57)`, whose `minLat`
is below the allowed `minLat`; `isBBOXWithin` is false for it, and whatever the surroundings
do, `main` returns status 1 after registering the drivers and writing the error line: no
command is run, no file is opened and no pixel is computed. -/
theorem main_rejects_hard_coded_request (w : World) :
    parseBBOX w.uninit bboxStr = Except.ok ⟨10, 54, 15, 57⟩ ∧
    (54 : ℚ) < allowedBBOX.minLat ∧
    isBBOXWithin ⟨10, 54, 15, 57⟩ allowedBBOX = false ∧
    main w = Except.ok (1, [Event.gdalAllRegister,
      Event.cerr "Error: The specified BBOX is out of the allowed range."]) := by
  have hp : parseBBOX w.uninit bboxStr = Except.ok ⟨10, 54, 15, 57⟩ := by
    simp [parseBBOX, sscanfLf4_bboxStr]
  have hlt : (54 : ℚ) < allowedBBOX.minLat := by norm_num [allowedBBOX]
  have hw : isBBOXWithin ⟨10, 54, 15, 57⟩ allowedBBOX = false := by
    have : ¬ allowedBBOX.minLat ≤ 54 := not_le.mpr hlt
    simp [isBBOXWithin, this]
  refine ⟨hp, hlt, hw, ?_⟩
  simp only [main, hp]
  simp [bind, Except.bind, pure, Except.pure, hw]

/-! ## Arithmetic of doubles -/

namespace Dbl

theorem overflowAt_gt : (1000 : ℝ) < overflowAt := by
  norm_num [overflowAt]

theorem pack_of_lt (n : Bool) {m : NNReal} (h : (m : ℝ) < overflowAt) : pack n m = fin n m := by
  simp [pack, not_le.mpr h]

theorem pack_of_le (n : Bool) {m : NNReal} (h : overflowAt ≤ (m : ℝ)) : pack n m = inf n := by
  simp [pack, h]

theorem mul_fin (n1 n2 : Bool) (m1 m2 : NNReal) :
    fin n1 m1 * fin n2 m2 = pack (xor n1 n2) (m1 * m2) := rfl

theorem neg_fin (n : Bool) (m : NNReal) : -fin n m = fin (!n) m := rfl

theorem neg_nan : -nan = nan := rfl

theorem neg_inf (n : Bool) : -inf n = inf (!n) := rfl

theorem div_fin {n1 n2 : Bool} {m1 m2 : NNReal} (h : m2 ≠ 0) :
    fin n1 m1 / fin n2 m2 = pack (xor n1 n2) (m1 / m2) := by
  show div (fin n1 m1) (fin n2 m2) = _
  simp [div, h]

theorem fin_div_inf (n1 n2 : Bool) (m1 : NNReal) : fin n1 m1 / inf n2 = fin (xor n1 n2) 0 := rfl

/-- The sum of two results that are not negative is the result of the sum. -/
theorem pack_add_pack (a b : NNReal) : pack false a + pack false b = pack false (a + b) := by
  show add (pack false a) (pack false b) = _
  have hT := overflowAt_gt
  by_cases ha : overflowAt ≤ (a : ℝ)
  · have hab : overflowAt ≤ ((a + b : NNReal) : ℝ) := by
      push_cast; exact le_trans ha (le_add_of_nonneg_right b.2)
    rw [pack_of_le _ ha, pack_of_le _ hab]
    by_cases hb : overflowAt ≤ (b : ℝ)
    · rw [pack_of_le _ hb]; simp [add]
    · rw [pack_of_lt _ (not_le.mp hb)]; simp [add]
  · rw [pack_of_lt _ (not_le.mp ha)]
    by_cases hb : overflowAt ≤ (b : ℝ)
    · have hab : overflowAt ≤ ((a + b : NNReal) : ℝ) := by
        push_cast; exact le_trans hb (le_add_of_nonneg_left a.2)
      rw [pack_of_le _ hb, pack_of_le _ hab]; simp [add]
    · rw [pack_of_lt _ (not_le.mp hb)]
      simp only [add, signed, Bool.and_self, Bool.false_eq_true, if_false, round]
      by_cases h0 : (a : ℝ) + (b : ℝ) = 0
      · have hab : a + b = 0 := by exact_mod_cast h0
        rw [if_pos h0, hab, pack_of_lt]
        simpa using lt_trans (by norm_num) hT
      · rw [if_neg h0]
        have hnn : (0 : ℝ) ≤ (a : ℝ) + (b : ℝ) := add_nonneg a.2 b.2
        have h1 : decide ((a : ℝ) + (b : ℝ) < 0) = false := by simpa using hnn
        have h2 : Real.nnabs ((a : ℝ) + (b : ℝ)) = a + b := by
          ext; simp [abs_of_nonneg hnn]
        rw [h1, h2]

theorem sqrt_pack (a : NNReal) :
    sqrt (pack false a) = if overflowAt ≤ (a : ℝ) then inf false else fin false (NNReal.sqrt a) := by
  by_cases ha : overflowAt ≤ (a : ℝ)
  · rw [pack_of_le _ ha, if_pos ha]; simp [sqrt]
  · rw [pack_of_lt _ (not_le.mp ha), if_neg ha]; simp [sqrt]

@[simp] theorem nan_mul (b : Dbl) : nan * b = nan := by cases b <;> rfl

@[simp] theorem mul_nan (a : Dbl) : a * nan = nan := by cases a <;> rfl

@[simp] theorem nan_add (b : Dbl) : nan + b = nan := by cases b <;> rfl

@[simp] theorem add_nan (a : Dbl) : a + nan = nan := by cases a <;> rfl

@[simp] theorem nan_div (b : Dbl) : nan / b = nan := by cases b <;> rfl

@[simp] theorem div_nan (a : Dbl) : a / nan = nan := by cases a <;> rfl

@[simp] theorem sqrt_nan : sqrt nan = nan := rfl

@[simp] theorem atan_nan : atan nan = nan := rfl

@[simp] theorem atan2_nan_left (x : Dbl) : atan2 nan x = nan := by cases x <;> rfl

theorem toReal?_fin (n : Bool) (m : NNReal) : (fin n m).toReal? = some (signed n m) := rfl

theorem toReal?_lit (m : NNReal) : (lit m).toReal? = some (m : ℝ) := by
  simp [lit, toReal?, signed]

end Dbl

open Dbl


/-! ## The angle computations on finite values -/

theorem arctan_nonneg_of_nonneg {x : ℝ} (h : 0 ≤ x) : 0 ≤ Real.arctan x := by
  have := Real.arctan_strictMono.monotone h
  rwa [Real.arctan_zero] at this

/-- Conversion to degrees, `a * 180.0 / M_PI`, of a finite angle of magnitude at most `π`. -/
theorem Dbl.mul_180_div_pi (ν : Bool) {a : NNReal} (ha : (a : ℝ) ≤ Real.pi) :
    Dbl.fin ν a * Dbl.lit 180 / M_PI = Dbl.fin ν (a * 180 / NNReal.pi) := by
  have hT := Dbl.overflowAt_gt
  have hpi4 := Real.pi_lt_four
  have hpi := Real.pi_pos
  have h1 : (((a * 180 : NNReal)) : ℝ) < Dbl.overflowAt := by
    push_cast; nlinarith [a.coe_nonneg]
  have hpne : NNReal.pi ≠ 0 := by
    intro h; have := congrArg (fun x : NNReal => (x : ℝ)) h; simp at this; exact hpi.ne' this
  have h2 : (((a * 180 / NNReal.pi : NNReal)) : ℝ) < Dbl.overflowAt := by
    have e : (((a * 180 / NNReal.pi : NNReal)) : ℝ) = (a : ℝ) * 180 / Real.pi := by
      simp [NNReal.coe_real_pi]
    have : (a : ℝ) * 180 / Real.pi ≤ 180 := by
      rw [div_le_iff₀ hpi]; nlinarith [a.coe_nonneg]
    rw [e]; linarith
  show (Dbl.fin ν a * Dbl.fin false 180) / Dbl.fin false NNReal.pi = _
  rw [Dbl.mul_fin, Dbl.pack_of_lt _ h1, Dbl.div_fin hpne, Dbl.pack_of_lt _ h2]
  simp

/-- The value `atan2(d, d)` for a finite `d`: `∓π` or `±0` at a zero, `-3π/4` for a
negative and `π/4` for a positive `d`. -/
theorem Dbl.atan2_self_fin (ν : Bool) (k : NNReal) :
    Dbl.atan2 (Dbl.fin ν k) (Dbl.fin ν k) =
      Dbl.fin ν (if k = 0 then (if ν then NNReal.pi else 0)
        else if ν then 3 * NNReal.pi / 4 else NNReal.pi / 4) := by
  have hpi := Real.pi_pos
  by_cases hk : k = 0
  · subst hk; simp [Dbl.atan2]
  · have hk' : (k : ℝ) ≠ 0 := by exact_mod_cast hk
    cases ν
    · simp only [Dbl.atan2, hk, if_false, Bool.false_eq_true, div_self hk', Real.arctan_one]
      congr 1
      ext
      rw [Real.coe_toNNReal _ (by positivity)]
      simp
    · simp only [Dbl.atan2, hk, if_false, if_true, div_self hk', Real.arctan_one]
      congr 1
      ext
      rw [Real.coe_toNNReal _ (by linarith)]
      simp only [NNReal.coe_div, NNReal.coe_mul, NNReal.coe_real_pi, NNReal.coe_ofNat]
      ring

/-- The adjustment of line 55 on a finite orientation of magnitude at most 360. -/
theorem Dbl.adjust_fin (ν : Bool) {v : NNReal} (hv : (v : ℝ) ≤ 360) :
    (if Dbl.lt (Dbl.fin ν v) (Dbl.lit 0) then Dbl.fin ν v + Dbl.lit 360
      else Dbl.fin ν v).toReal? =
      some (if Dbl.signed ν v < 0 then Dbl.signed ν v + 360 else Dbl.signed ν v) := by
  have hT := Dbl.overflowAt_gt
  have hlt : Dbl.lt (Dbl.fin ν v) (Dbl.lit 0) ↔ Dbl.signed ν v < 0 := by
    simp [Dbl.lt, Dbl.lit, Dbl.signed]
  by_cases h : Dbl.signed ν v < 0
  · rw [if_pos (hlt.mpr h), if_pos h]
    show (Dbl.add (Dbl.fin ν v) (Dbl.fin false 360)).toReal? = _
    have hs : Dbl.signed false 360 = 360 := by simp [Dbl.signed]
    have hv0 : (0 : ℝ) ≤ v := v.coe_nonneg
    have hge : -360 ≤ Dbl.signed ν v := by
      cases ν <;> simp [Dbl.signed] <;> linarith
    simp only [Dbl.add, hs, Dbl.round]
    by_cases h0 : Dbl.signed ν v + 360 = 0
    · rw [if_pos h0, h0]; simp [Dbl.toReal?, Dbl.signed]
    · rw [if_neg h0]
      have hpos : 0 < Dbl.signed ν v + 360 := lt_of_le_of_ne (by linarith) (Ne.symm h0)
      have hsm : ((Real.nnabs (Dbl.signed ν v + 360) : NNReal) : ℝ) < Dbl.overflowAt := by
        simp only [Real.coe_nnabs, abs_of_pos hpos]; linarith
      rw [Dbl.pack_of_lt _ hsm]
      have hd : decide (Dbl.signed ν v + 360 < 0) = false := by simpa using hpos.le
      rw [hd]
      have hpos1 : 0 < (if ν = true then -(v : ℝ) else (v : ℝ)) + 360 := by
        simpa [Dbl.signed] using hpos
      simp only [Dbl.toReal?, Dbl.signed, Bool.false_eq_true, if_false, Real.coe_nnabs,
        abs_of_pos hpos1]
  · rw [if_neg (fun hh => h (hlt.mp hh)), if_neg h]
    rfl

/-- The projection angle from a finite horizontal component of magnitude at most 1. -/
theorem Dbl.slopeAngle_fin (ν : Bool) {k : NNReal} (hk : k ≤ 1) :
    Dbl.atan (Dbl.sqrt (Dbl.fin ν k * Dbl.fin ν k + Dbl.fin ν k * Dbl.fin ν k))
        * Dbl.lit 180 / M_PI =
      Dbl.fin false (Real.toNNReal (Real.arctan (NNReal.sqrt (k * k + k * k))) * 180
        / NNReal.pi) := by
  have hT := Dbl.overflowAt_gt
  have hk1 : (k : ℝ) ≤ 1 := by exact_mod_cast hk
  have hsum : ¬ Dbl.overflowAt ≤ ((k * k + k * k : NNReal) : ℝ) := by
    push_cast; nlinarith [k.coe_nonneg]
  rw [Dbl.mul_fin, Bool.xor_self, Dbl.pack_add_pack, Dbl.sqrt_pack, if_neg hsum]
  show Dbl.fin false (Real.toNNReal (Real.arctan _)) * Dbl.lit 180 / M_PI = _
  rw [Dbl.mul_180_div_pi]
  rw [Real.coe_toNNReal _ (arctan_nonneg_of_nonneg (NNReal.coe_nonneg _))]
  linarith [Real.arctan_lt_pi_div_two ((NNReal.sqrt (k * k + k * k) : NNReal) : ℝ),
    Real.pi_pos]


/-! ## The loop body, value by value -/

theorem lit_one_mul_lit_one : Dbl.lit 1 * Dbl.lit 1 = Dbl.pack false 1 := by
  show Dbl.fin false 1 * Dbl.fin false 1 = _
  rw [Dbl.mul_fin]; simp

theorem pixel_slopeRad_eq (tanFn : Dbl → Dbl) (s : Dbl) :
    (pixelLocalsWith tanFn s).slopeRad = s * M_PI / Dbl.lit 180 := rfl

theorem pixel_dzdx_eq (tanFn : Dbl → Dbl) (s : Dbl) :
    (pixelLocalsWith tanFn s).dzdx = tanFn (s * M_PI / Dbl.lit 180) := rfl

theorem pixel_length_eq (tanFn : Dbl → Dbl) (s : Dbl) :
    (pixelLocalsWith tanFn s).length =
      Dbl.sqrt (-(pixelLocalsWith tanFn s).dzdx * -(pixelLocalsWith tanFn s).dzdx +
        -(pixelLocalsWith tanFn s).dzdx * -(pixelLocalsWith tanFn s).dzdx +
        Dbl.lit 1 * Dbl.lit 1) := rfl

theorem pixel_normalX_eq (tanFn : Dbl → Dbl) (s : Dbl) :
    (pixelLocalsWith tanFn s).normalX =
      -(pixelLocalsWith tanFn s).dzdx / (pixelLocalsWith tanFn s).length := rfl

theorem pixel_normalZ_eq (tanFn : Dbl → Dbl) (s : Dbl) :
    (pixelLocalsWith tanFn s).normalZ = Dbl.lit 1 / (pixelLocalsWith tanFn s).length := rfl

theorem pixel_slopeAngle_eq (tanFn : Dbl → Dbl) (s : Dbl) :
    (pixelLocalsWith tanFn s).slopeAngle =
      Dbl.atan (Dbl.sqrt
        ((pixelLocalsWith tanFn s).normalX * (pixelLocalsWith tanFn s).normalX +
         (pixelLocalsWith tanFn s).normalX * (pixelLocalsWith tanFn s).normalX))
        * Dbl.lit 180 / M_PI := rfl

theorem pixel_orientation0_eq (tanFn : Dbl → Dbl) (s : Dbl) :
    (pixelLocalsWith tanFn s).orientation0 =
      Dbl.atan2 (pixelLocalsWith tanFn s).normalX (pixelLocalsWith tanFn s).normalX
        * Dbl.lit 180 / M_PI := rfl

theorem pixel_orientation_eq (tanFn : Dbl → Dbl) (s : Dbl) :
    (pixelLocalsWith tanFn s).orientation =
      if Dbl.lt (pixelLocalsWith tanFn s).orientation0 (Dbl.lit 0)
        then (pixelLocalsWith tanFn s).orientation0 + Dbl.lit 360
        else (pixelLocalsWith tanFn s).orientation0 := rfl

/-- A NaN tangent makes every later value of the loop body NaN. -/
theorem pixel_of_nan (tanFn : Dbl → Dbl) (s : Dbl)
    (h : (pixelLocalsWith tanFn s).dzdx = Dbl.nan) :
    (pixelLocalsWith tanFn s).length = Dbl.nan ∧
    (pixelLocalsWith tanFn s).normalX = Dbl.nan ∧
    (pixelLocalsWith tanFn s).normalZ = Dbl.nan ∧
    (pixelLocalsWith tanFn s).slopeAngle = Dbl.nan ∧
    (pixelLocalsWith tanFn s).orientation = Dbl.nan := by
  have hl : (pixelLocalsWith tanFn s).length = Dbl.nan := by
    rw [pixel_length_eq, h]; simp [Dbl.neg_nan]
  have hx : (pixelLocalsWith tanFn s).normalX = Dbl.nan := by
    rw [pixel_normalX_eq, h]; simp [Dbl.neg_nan]
  have hz : (pixelLocalsWith tanFn s).normalZ = Dbl.nan := by
    rw [pixel_normalZ_eq, hl]; simp
  have hsa : (pixelLocalsWith tanFn s).slopeAngle = Dbl.nan := by
    rw [pixel_slopeAngle_eq, hx]; simp
  have ho0 : (pixelLocalsWith tanFn s).orientation0 = Dbl.nan := by
    rw [pixel_orientation0_eq, hx]; simp
  refine ⟨hl, hx, hz, hsa, ?_⟩
  rw [pixel_orientation_eq, ho0, if_neg (by simp [Dbl.lt])]

/-- An infinite tangent gives an infinite length and NaN angles. -/
theorem pixel_of_inf (tanFn : Dbl → Dbl) (s : Dbl) (ν : Bool)
    (h : (pixelLocalsWith tanFn s).dzdx = Dbl.inf ν) :
    (pixelLocalsWith tanFn s).length = Dbl.inf false ∧
    (pixelLocalsWith tanFn s).normalX = Dbl.nan ∧
    (pixelLocalsWith tanFn s).normalZ = Dbl.fin false 0 ∧
    (pixelLocalsWith tanFn s).slopeAngle = Dbl.nan ∧
    (pixelLocalsWith tanFn s).orientation = Dbl.nan := by
  have hT := Dbl.overflowAt_gt
  have hl : (pixelLocalsWith tanFn s).length = Dbl.inf false := by
    rw [pixel_length_eq, h, lit_one_mul_lit_one,
      Dbl.pack_of_lt false (by simp; linarith)]
    cases ν <;> simp [Dbl.neg_inf] <;> rfl
  have hx : (pixelLocalsWith tanFn s).normalX = Dbl.nan := by
    rw [pixel_normalX_eq, hl, h]; rfl
  have hz : (pixelLocalsWith tanFn s).normalZ = Dbl.fin false 0 := by
    rw [pixel_normalZ_eq, hl]; rfl
  have hsa : (pixelLocalsWith tanFn s).slopeAngle = Dbl.nan := by
    rw [pixel_slopeAngle_eq, hx]; simp
  have ho0 : (pixelLocalsWith tanFn s).orientation0 = Dbl.nan := by
    rw [pixel_orientation0_eq, hx]; simp
  refine ⟨hl, hx, hz, hsa, ?_⟩
  rw [pixel_orientation_eq, ho0, if_neg (by simp [Dbl.lt])]

/-- The length for a finite tangent of magnitude `m`: `+∞` when `2·m² + 1` overflows,
`sqrt(2·m² + 1)` otherwise. -/
theorem pixel_length_of_fin (tanFn : Dbl → Dbl) (s : Dbl) (n : Bool) (m : NNReal)
    (h : (pixelLocalsWith tanFn s).dzdx = Dbl.fin n m) :
    (pixelLocalsWith tanFn s).length =
      if Dbl.overflowAt ≤ ((m * m + m * m + 1 : NNReal) : ℝ) then Dbl.inf false
      else Dbl.fin false (NNReal.sqrt (m * m + m * m + 1)) := by
  rw [pixel_length_eq, h, Dbl.neg_fin, Dbl.mul_fin, Bool.xor_self, lit_one_mul_lit_one,
    Dbl.pack_add_pack, Dbl.pack_add_pack, Dbl.sqrt_pack]

/-- The unit normal for a finite tangent when `2·m² + 1` does not overflow. -/
theorem pixel_normal_of_fin (tanFn : Dbl → Dbl) (s : Dbl) (n : Bool) (m : NNReal)
    (h : (pixelLocalsWith tanFn s).dzdx = Dbl.fin n m)
    (hno : ((m * m + m * m + 1 : NNReal) : ℝ) < Dbl.overflowAt) :
    (pixelLocalsWith tanFn s).length = Dbl.fin false (NNReal.sqrt (m * m + m * m + 1)) ∧
    (pixelLocalsWith tanFn s).normalX =
      Dbl.fin (!n) (m / NNReal.sqrt (m * m + m * m + 1)) ∧
    (pixelLocalsWith tanFn s).normalZ =
      Dbl.fin false (1 / NNReal.sqrt (m * m + m * m + 1)) ∧
    m / NNReal.sqrt (m * m + m * m + 1) ≤ 1 ∧
    (m / NNReal.sqrt (m * m + m * m + 1) = 0 ↔ m = 0) := by
  have hT := Dbl.overflowAt_gt
  have hl := pixel_length_of_fin tanFn s n m h
  rw [if_neg (not_le.mpr hno)] at hl
  have hpos : (0 : NNReal) < m * m + m * m + 1 := by positivity
  have hLne : NNReal.sqrt (m * m + m * m + 1) ≠ 0 := by
    rw [Ne, NNReal.sqrt_eq_zero]; exact hpos.ne'
  have hL1 : (1 : NNReal) ≤ NNReal.sqrt (m * m + m * m + 1) := by
    rw [← NNReal.sqrt_one]; exact NNReal.sqrt_le_sqrt.mpr (by simp)
  have hmL : m ≤ NNReal.sqrt (m * m + m * m + 1) := by
    rw [NNReal.le_sqrt_iff_sq_le, sq]
    exact le_trans (le_add_of_nonneg_right (zero_le _)) (le_add_of_nonneg_right (zero_le _))
  have hk1 : m / NNReal.sqrt (m * m + m * m + 1) ≤ 1 := by
    rw [div_le_iff₀ (lt_of_lt_of_le one_pos hL1)]; simpa using hmL
  have hz1 : 1 / NNReal.sqrt (m * m + m * m + 1) ≤ 1 := by
    rw [div_le_iff₀ (lt_of_lt_of_le one_pos hL1)]; simp [hL1]
  have hkT : ((m / NNReal.sqrt (m * m + m * m + 1) : NNReal) : ℝ) < Dbl.overflowAt := by
    have : ((m / NNReal.sqrt (m * m + m * m + 1) : NNReal) : ℝ) ≤ 1 := by exact_mod_cast hk1
    linarith
  have hzT : ((1 / NNReal.sqrt (m * m + m * m + 1) : NNReal) : ℝ) < Dbl.overflowAt := by
    have : ((1 / NNReal.sqrt (m * m + m * m + 1) : NNReal) : ℝ) ≤ 1 := by exact_mod_cast hz1
    linarith
  refine ⟨hl, ?_, ?_, hk1, ?_⟩
  · rw [pixel_normalX_eq, hl, h, Dbl.neg_fin, Dbl.div_fin hLne, Dbl.pack_of_lt _ hkT]
    simp
  · rw [pixel_normalZ_eq, hl]
    show Dbl.fin false 1 / _ = _
    rw [Dbl.div_fin hLne, Dbl.pack_of_lt _ hzT]
    simp
  · rw [div_eq_zero_iff]; simp [hLne]

/-- The normal for a finite tangent when `2·m² + 1` overflows: the length is `+∞` and
every component is a zero. -/
theorem pixel_normal_of_fin_overflow (tanFn : Dbl → Dbl) (s : Dbl) (n : Bool) (m : NNReal)
    (h : (pixelLocalsWith tanFn s).dzdx = Dbl.fin n m)
    (hov : Dbl.overflowAt ≤ ((m * m + m * m + 1 : NNReal) : ℝ)) :
    (pixelLocalsWith tanFn s).length = Dbl.inf false ∧
    (pixelLocalsWith tanFn s).normalX = Dbl.fin (!n) 0 ∧
    (pixelLocalsWith tanFn s).normalZ = Dbl.fin false 0 := by
  have hl := pixel_length_of_fin tanFn s n m h
  rw [if_pos hov] at hl
  refine ⟨hl, ?_, ?_⟩
  · rw [pixel_normalX_eq, hl, h, Dbl.neg_fin, Dbl.fin_div_inf]; simp
  · rw [pixel_normalZ_eq, hl]; rfl

/-- The two angles from a finite horizontal component `normalX = normalY` of sign bit `ν`
and magnitude `k ≤ 1`: the projection angle is `atan(sqrt(2·k²))·180/π`; the orientation is
`-180` adjusted to `180` at `-0.0`, `0` at `+0.0`, `-135` adjusted to `225` at a negative
and `45` at a positive component. -/
theorem pixel_angles_of_unit (tanFn : Dbl → Dbl) (s : Dbl) (ν : Bool) (k : NNReal)
    (hx : (pixelLocalsWith tanFn s).normalX = Dbl.fin ν k) (hk : k ≤ 1) :
    (pixelLocalsWith tanFn s).slopeAngle.toReal? =
      some (Real.arctan (Real.sqrt (2 * (k : ℝ) ^ 2)) * 180 / Real.pi) ∧
    (k = 0 → ν = true →
      (pixelLocalsWith tanFn s).orientation0.toReal? = some (-180) ∧
      (pixelLocalsWith tanFn s).orientation.toReal? = some 180) ∧
    (k = 0 → ν = false →
      (pixelLocalsWith tanFn s).orientation0.toReal? = some 0 ∧
      (pixelLocalsWith tanFn s).orientation.toReal? = some 0) ∧
    (k ≠ 0 → ν = true →
      (pixelLocalsWith tanFn s).orientation0.toReal? = some (-135) ∧
      (pixelLocalsWith tanFn s).orientation.toReal? = some 225) ∧
    (k ≠ 0 → ν = false →
      (pixelLocalsWith tanFn s).orientation0.toReal? = some 45 ∧
      (pixelLocalsWith tanFn s).orientation.toReal? = some 45) := by
  have hpi := Real.pi_pos
  have hpne : Real.pi ≠ 0 := hpi.ne'
  have hsa : (pixelLocalsWith tanFn s).slopeAngle.toReal? =
      some (Real.arctan (Real.sqrt (2 * (k : ℝ) ^ 2)) * 180 / Real.pi) := by
    rw [pixel_slopeAngle_eq, hx, Dbl.slopeAngle_fin ν hk, Dbl.toReal?_fin]
    have e : ((k * k + k * k : NNReal) : ℝ) = 2 * (k : ℝ) ^ 2 := by push_cast; ring
    simp only [Dbl.signed, Bool.false_eq_true, if_false, NNReal.coe_div, NNReal.coe_mul,
      NNReal.coe_real_pi, NNReal.coe_ofNat, Real.coe_sqrt, e,
      Real.coe_toNNReal _ (arctan_nonneg_of_nonneg (Real.sqrt_nonneg _))]
  -- the orientation before the adjustment, as a finite double
  have key : ∀ A : NNReal, (A : ℝ) ≤ Real.pi →
      Dbl.atan2 (Dbl.fin ν k) (Dbl.fin ν k) = Dbl.fin ν A →
      (pixelLocalsWith tanFn s).orientation0.toReal? =
        some (Dbl.signed ν (A * 180 / NNReal.pi)) ∧
      (pixelLocalsWith tanFn s).orientation.toReal? =
        some (if Dbl.signed ν (A * 180 / NNReal.pi) < 0
          then Dbl.signed ν (A * 180 / NNReal.pi) + 360
          else Dbl.signed ν (A * 180 / NNReal.pi)) := by
    intro A hA hat
    have ho0 : (pixelLocalsWith tanFn s).orientation0 = Dbl.fin ν (A * 180 / NNReal.pi) := by
      rw [pixel_orientation0_eq, hx, hat, Dbl.mul_180_div_pi ν hA]
    have hv : ((A * 180 / NNReal.pi : NNReal) : ℝ) ≤ 360 := by
      simp only [NNReal.coe_div, NNReal.coe_mul, NNReal.coe_real_pi, NNReal.coe_ofNat]
      rw [div_le_iff₀ hpi]; nlinarith [A.coe_nonneg]
    refine ⟨by rw [ho0]; rfl, ?_⟩
    rw [pixel_orientation_eq, ho0]
    exact Dbl.adjust_fin ν hv
  have hat := Dbl.atan2_self_fin ν k
  refine ⟨hsa, ?_, ?_, ?_, ?_⟩
  · intro h0 hν
    subst hν
    rw [if_pos h0, if_pos rfl] at hat
    obtain ⟨a, b⟩ := key NNReal.pi (by simp) hat
    have e : Dbl.signed true (NNReal.pi * 180 / NNReal.pi) = -180 := by
      simp only [Dbl.signed, if_true, NNReal.coe_div, NNReal.coe_mul, NNReal.coe_real_pi,
        NNReal.coe_ofNat]
      field_simp
    rw [e] at a b
    refine ⟨a, ?_⟩
    rw [b]; norm_num
  · intro h0 hν
    subst hν
    rw [if_pos h0] at hat
    simp only [Bool.false_eq_true, if_false] at hat
    obtain ⟨a, b⟩ := key 0 (by simpa using hpi.le) hat
    have e : Dbl.signed false (0 * 180 / NNReal.pi) = 0 := by simp [Dbl.signed]
    rw [e] at a b
    refine ⟨a, ?_⟩
    rw [b]; norm_num
  · intro h0 hν
    subst hν
    rw [if_neg h0, if_pos rfl] at hat
    obtain ⟨a, b⟩ := key (3 * NNReal.pi / 4)
      (by simp only [NNReal.coe_div, NNReal.coe_mul, NNReal.coe_real_pi, NNReal.coe_ofNat]
          linarith) hat
    have e : Dbl.signed true (3 * NNReal.pi / 4 * 180 / NNReal.pi) = -135 := by
      simp only [Dbl.signed, if_true, NNReal.coe_div, NNReal.coe_mul, NNReal.coe_real_pi,
        NNReal.coe_ofNat]
      field_simp
      ring
    rw [e] at a b
    refine ⟨a, ?_⟩
    rw [b]; norm_num
  · intro h0 hν
    subst hν
    rw [if_neg h0] at hat
    simp only [Bool.false_eq_true, if_false] at hat
    obtain ⟨a, b⟩ := key (NNReal.pi / 4)
      (by simp only [NNReal.coe_div, NNReal.coe_real_pi, NNReal.coe_ofNat]
          linarith) hat
    have e : Dbl.signed false (NNReal.pi / 4 * 180 / NNReal.pi) = 45 := by
      simp only [Dbl.signed, Bool.false_eq_true, if_false, NNReal.coe_div, NNReal.coe_mul,
        NNReal.coe_real_pi, NNReal.coe_ofNat]
      field_simp
      ring
    rw [e] at a b
    refine ⟨a, ?_⟩
    rw [b]; norm_num


/-! ## The tangent of the slope -/

theorem nnreal_pi_ne_zero : NNReal.pi ≠ 0 := by
  intro h
  have := congrArg (fun x : NNReal => (x : ℝ)) h
  simp at this
  exact Real.pi_pos.ne' this

/-- The angle in radians of a finite slope whose product with `M_PI` does not overflow. -/
theorem slopeRad_of_fin (n : Bool) {m : NNReal} (h : (m : ℝ) * Real.pi < Dbl.overflowAt) :
    Dbl.fin n m * M_PI / Dbl.lit 180 = Dbl.fin n (m * NNReal.pi / 180) := by
  have hpi := Real.pi_pos
  have h1 : ((m * NNReal.pi : NNReal) : ℝ) < Dbl.overflowAt := by simpa using h
  have h2 : ((m * NNReal.pi / 180 : NNReal) : ℝ) < Dbl.overflowAt := by
    have hnn : (0 : ℝ) ≤ (m : ℝ) * Real.pi := mul_nonneg m.coe_nonneg hpi.le
    have : ((m * NNReal.pi / 180 : NNReal) : ℝ) = (m : ℝ) * Real.pi / 180 := by simp
    rw [this]
    linarith
  show (Dbl.fin n m * Dbl.fin false NNReal.pi) / Dbl.fin false 180 = _
  rw [Dbl.mul_fin, Dbl.pack_of_lt _ h1, Dbl.div_fin (by norm_num), Dbl.pack_of_lt _ h2]
  simp

/-- The angle in radians is infinite when the product of the slope with `M_PI` overflows. -/
theorem slopeRad_of_overflow (n : Bool) {m : NNReal}
    (h : Dbl.overflowAt ≤ (m : ℝ) * Real.pi) :
    Dbl.fin n m * M_PI / Dbl.lit 180 = Dbl.inf n := by
  have h1 : Dbl.overflowAt ≤ ((m * NNReal.pi : NNReal) : ℝ) := by simpa using h
  show (Dbl.fin n m * Dbl.fin false NNReal.pi) / Dbl.fin false 180 = _
  rw [Dbl.mul_fin, Dbl.pack_of_le _ h1]
  show Dbl.div (Dbl.inf (xor n false)) (Dbl.fin false 180) = _
  simp [Dbl.div]

theorem slopeRad_of_inf (n : Bool) : Dbl.inf n * M_PI / Dbl.lit 180 = Dbl.inf n := by
  show Dbl.div (Dbl.mul (Dbl.inf n) (Dbl.fin false NNReal.pi)) (Dbl.fin false 180) = _
  simp [Dbl.mul, Dbl.div, nnreal_pi_ne_zero]

theorem slopeRad_of_nan : Dbl.nan * M_PI / Dbl.lit 180 = Dbl.nan := by simp

/-- With the exact tangent the gradient is finite exactly for a finite slope whose product
with `M_PI` does not overflow, and NaN for every other slope. -/
theorem pixel_dzdx_cases (slope : Dbl) :
    (∀ n m, slope = Dbl.fin n m → (m : ℝ) * Real.pi < Dbl.overflowAt →
      (pixelLocals slope).dzdx = Dbl.tan (Dbl.fin n (m * NNReal.pi / 180)) ∧
      ∃ n1 m1, (pixelLocals slope).dzdx = Dbl.fin n1 m1) ∧
    ((slope = Dbl.nan ∨ (∃ ν, slope = Dbl.inf ν) ∨
        ∃ n m, slope = Dbl.fin n m ∧ Dbl.overflowAt ≤ (m : ℝ) * Real.pi) →
      (pixelLocals slope).dzdx = Dbl.nan) := by
  constructor
  · intro n m hs hm
    subst hs
    have : (pixelLocals (Dbl.fin n m)).dzdx = Dbl.tan (Dbl.fin n (m * NNReal.pi / 180)) := by
      show (pixelLocalsWith Dbl.tan (Dbl.fin n m)).dzdx = _
      rw [pixel_dzdx_eq, slopeRad_of_fin n hm]
    exact ⟨this, _, _, this.trans rfl⟩
  · rintro (hs | ⟨ν, hs⟩ | ⟨n, m, hs, hm⟩) <;> subst hs <;>
      show (pixelLocalsWith Dbl.tan _).dzdx = _ <;> rw [pixel_dzdx_eq]
    · rw [slopeRad_of_nan]; rfl
    · rw [slopeRad_of_inf]; rfl
    · rw [slopeRad_of_overflow n hm]; rfl

/-- The gradient at a slope of 45 degrees is exactly 1. -/
theorem pixel_dzdx_45 : (pixelLocals (Dbl.lit 45)).dzdx = Dbl.fin false 1 := by
  have hT := Dbl.overflowAt_gt
  have hm : ((45 : NNReal) : ℝ) * Real.pi < Dbl.overflowAt := by
    have := Real.pi_lt_four
    push_cast; linarith
  obtain ⟨h, -⟩ := (pixel_dzdx_cases (Dbl.lit 45)).1 false 45 rfl hm
  rw [h]
  have ht : Real.tan (Dbl.signed false (45 * NNReal.pi / 180)) = 1 := by
    have : Dbl.signed false (45 * NNReal.pi / 180) = Real.pi / 4 := by
      simp [Dbl.signed]; ring
    rw [this, Real.tan_pi_div_four]
  simp [Dbl.tan, ht]

/-- The gradient at the slopes `+0.0` and `-0.0` is the same zero. -/
theorem pixel_dzdx_zero (n : Bool) : (pixelLocals (Dbl.fin n 0)).dzdx = Dbl.fin n 0 := by
  have hT := Dbl.overflowAt_gt
  have hm : ((0 : NNReal) : ℝ) * Real.pi < Dbl.overflowAt := by simp; linarith
  obtain ⟨h, -⟩ := (pixel_dzdx_cases (Dbl.fin n 0)).1 n 0 rfl hm
  rw [h]
  have e : (0 * NNReal.pi / 180 : NNReal) = 0 := by simp
  rw [e]
  have ht : Real.tan (Dbl.signed n 0) = 0 := by
    cases n <;> simp [Dbl.signed]
  simp [Dbl.tan, ht]


theorem signed_sq (n : Bool) (m : NNReal) : Dbl.signed n m ^ 2 = (m : ℝ) ^ 2 := by
  cases n <;> simp [Dbl.signed]

theorem unit_component_sq (m : NNReal) :
    2 * ((m / NNReal.sqrt (m * m + m * m + 1) : NNReal) : ℝ) ^ 2 =
      2 * (m : ℝ) ^ 2 / (1 + 2 * (m : ℝ) ^ 2) := by
  have hpos : (0 : ℝ) < 1 + 2 * (m : ℝ) ^ 2 := by positivity
  have e : ((m * m + m * m + 1 : NNReal) : ℝ) = 1 + 2 * (m : ℝ) ^ 2 := by push_cast; ring
  rw [NNReal.coe_div, Real.coe_sqrt, e, div_pow, Real.sq_sqrt hpos.le]
  ring

/-- The horizontal components of the normal for a finite tangent: `normalX = normalY`, with
the sign bit of the tangent flipped and a magnitude `k` with `2·k² < 1`, which is zero
exactly when the tangent is zero or `2·m² + 1` overflows. -/
theorem pixel_normalX_of_fin (tanFn : Dbl → Dbl) (s : Dbl) (n : Bool) (m : NNReal)
    (h : (pixelLocalsWith tanFn s).dzdx = Dbl.fin n m) :
    ∃ k : NNReal, k ≤ 1 ∧ 2 * (k : ℝ) ^ 2 < 1 ∧
      (pixelLocalsWith tanFn s).normalX = Dbl.fin (!n) k ∧
      (k = 0 ↔ m = 0 ∨ Dbl.overflowAt ≤ ((m * m + m * m + 1 : NNReal) : ℝ)) := by
  by_cases hov : Dbl.overflowAt ≤ ((m * m + m * m + 1 : NNReal) : ℝ)
  · obtain ⟨-, hx, -⟩ := pixel_normal_of_fin_overflow tanFn s n m h hov
    exact ⟨0, zero_le_one, by norm_num, hx, ⟨fun _ => Or.inr hov, fun _ => rfl⟩⟩
  · obtain ⟨-, hx, -, hk1, hk0⟩ := pixel_normal_of_fin tanFn s n m h (not_le.mp hov)
    refine ⟨_, hk1, ?_, hx, ?_⟩
    · rw [unit_component_sq, div_lt_one (by positivity)]
      linarith
    · rw [hk0]; exact ⟨Or.inl, fun hh => hh.elim id (fun ho => absurd ho hov)⟩

/-- The projection angle for a finite tangent is a finite value in `[0, 45)`. -/
theorem pixel_slopeAngle_of_fin (tanFn : Dbl → Dbl) (s : Dbl) (n : Bool) (m : NNReal)
    (h : (pixelLocalsWith tanFn s).dzdx = Dbl.fin n m) :
    ∃ p : ℝ, (pixelLocalsWith tanFn s).slopeAngle.toReal? = some p ∧ 0 ≤ p ∧ p < 45 := by
  obtain ⟨k, hk1, hk2, hx, -⟩ := pixel_normalX_of_fin tanFn s n m h
  obtain ⟨hsa, -⟩ := pixel_angles_of_unit tanFn s (!n) k hx hk1
  have hpi := Real.pi_pos
  refine ⟨_, hsa, ?_, ?_⟩
  · have := arctan_nonneg_of_nonneg (Real.sqrt_nonneg (2 * (k : ℝ) ^ 2))
    positivity
  · have hs : Real.sqrt (2 * (k : ℝ) ^ 2) < 1 := by
      rw [Real.sqrt_lt' one_pos]; simpa using hk2
    have h1 : Real.arctan (Real.sqrt (2 * (k : ℝ) ^ 2)) < Real.pi / 4 := by
      rw [← Real.arctan_one]; exact Real.arctan_strictMono hs
    rw [div_lt_iff₀ hpi]
    linarith

/-- The projection angle for a finite tangent `t` when `2·t² + 1` does not overflow. -/
theorem pixel_slopeAngle_formula (tanFn : Dbl → Dbl) (s : Dbl) (n : Bool) (m : NNReal)
    (h : (pixelLocalsWith tanFn s).dzdx = Dbl.fin n m)
    (hno : ((m * m + m * m + 1 : NNReal) : ℝ) < Dbl.overflowAt) :
    (pixelLocalsWith tanFn s).slopeAngle.toReal? =
      some (Real.arctan (Real.sqrt (2 * Dbl.signed n m ^ 2 / (1 + 2 * Dbl.signed n m ^ 2)))
        * 180 / Real.pi) := by
  obtain ⟨-, hx, -, hk1, -⟩ := pixel_normal_of_fin tanFn s n m h hno
  obtain ⟨hsa, -⟩ := pixel_angles_of_unit tanFn s (!n) _ hx hk1
  rw [hsa, unit_component_sq, signed_sq]

/-- The orientation for a finite tangent: one of `0`, `45`, `180`, `225`, by the sign bit
of the tangent and by whether the horizontal component of the normal is a zero. -/
theorem pixel_orientation_of_fin (tanFn : Dbl → Dbl) (s : Dbl) (n : Bool) (m : NNReal)
    (h : (pixelLocalsWith tanFn s).dzdx = Dbl.fin n m) :
    ((m = 0 ∨ Dbl.overflowAt ≤ ((m * m + m * m + 1 : NNReal) : ℝ)) → n = false →
      (pixelLocalsWith tanFn s).orientation0.toReal? = some (-180) ∧
      (pixelLocalsWith tanFn s).orientation.toReal? = some 180) ∧
    ((m = 0 ∨ Dbl.overflowAt ≤ ((m * m + m * m + 1 : NNReal) : ℝ)) → n = true →
      (pixelLocalsWith tanFn s).orientation0.toReal? = some 0 ∧
      (pixelLocalsWith tanFn s).orientation.toReal? = some 0) ∧
    (m ≠ 0 → ((m * m + m * m + 1 : NNReal) : ℝ) < Dbl.overflowAt → n = false →
      (pixelLocalsWith tanFn s).orientation0.toReal? = some (-135) ∧
      (pixelLocalsWith tanFn s).orientation.toReal? = some 225) ∧
    (m ≠ 0 → ((m * m + m * m + 1 : NNReal) : ℝ) < Dbl.overflowAt → n = true →
      (pixelLocalsWith tanFn s).orientation0.toReal? = some 45 ∧
      (pixelLocalsWith tanFn s).orientation.toReal? = some 45) := by
  obtain ⟨k, hk1, -, hx, hk0⟩ := pixel_normalX_of_fin tanFn s n m h
  obtain ⟨-, c1, c2, c3, c4⟩ := pixel_angles_of_unit tanFn s (!n) k hx hk1
  refine ⟨?_, ?_, ?_, ?_⟩
  · intro hz hn; exact c1 (hk0.mpr hz) (by simp [hn])
  · intro hz hn; exact c2 (hk0.mpr hz) (by simp [hn])
  · intro hm hno hn
    exact c3 (fun hk => (hk0.mp hk).elim hm (fun ho => absurd hno (not_lt.mpr ho)))
      (by simp [hn])
  · intro hm hno hn
    exact c4 (fun hk => (hk0.mp hk).elim hm (fun ho => absurd hno (not_lt.mpr ho)))
      (by simp [hn])

/-! ## A numerical bound -/

theorem cos_taylor_bound {x : ℝ} (hx : |x| ≤ 1) :
    |Real.cos x - (1 - x ^ 2 / 2 + x ^ 4 / 24 - x ^ 6 / 720 + x ^ 8 / 40320)|
      ≤ |x| ^ 10 * (11 / 36288000) := by
  have hx' : Complex.abs (x * Complex.I) ≤ 1 := by simpa using hx
  have h := Complex.exp_bound hx' (n := 10) (by norm_num)
  have hre : (Complex.exp (x * Complex.I) -
      ∑ m ∈ Finset.range 10, (x * Complex.I) ^ m / (m.factorial : ℂ)).re =
      Real.cos x - (1 - x ^ 2 / 2 + x ^ 4 / 24 - x ^ 6 / 720 + x ^ 8 / 40320) := by
    rw [Complex.sub_re, Complex.exp_ofReal_mul_I_re]
    congr 1
    simp only [Finset.sum_range_succ, Finset.sum_range_zero, mul_pow, Nat.factorial]
    have h2 : Complex.I ^ 2 = -1 := Complex.I_sq
    have h3 : Complex.I ^ 3 = -Complex.I := by rw [pow_succ, h2]; ring
    have h4 : Complex.I ^ 4 = 1 := Complex.I_pow_four
    have h5 : Complex.I ^ 5 = Complex.I := by rw [pow_succ, h4]; ring
    have h6 : Complex.I ^ 6 = -1 := by rw [pow_succ, h5]; simp
    have h7 : Complex.I ^ 7 = -Complex.I := by rw [pow_succ, h6]; ring
    have h8 : Complex.I ^ 8 = 1 := by rw [pow_succ, h7]; simp
    have h9 : Complex.I ^ 9 = Complex.I := by rw [pow_succ, h8]; ring
    rw [h2, h3, h4, h5, h6, h7, h8, h9]
    simp [← Complex.ofReal_pow]
    ring
  calc |Real.cos x - (1 - x ^ 2 / 2 + x ^ 4 / 24 - x ^ 6 / 720 + x ^ 8 / 40320)|
      = |(Complex.exp (x * Complex.I) -
          ∑ m ∈ Finset.range 10, (x * Complex.I) ^ m / (m.factorial : ℂ)).re| := by rw [hre]
    _ ≤ Complex.abs (Complex.exp (x * Complex.I) -
          ∑ m ∈ Finset.range 10, (x * Complex.I) ^ m / (m.factorial : ℂ)) :=
        Complex.abs_re_le_abs _
    _ ≤ Complex.abs (x * Complex.I) ^ 10 *
          (((10 : ℕ).succ : ℝ) * (((10 : ℕ).factorial : ℝ) * (10 : ℕ))⁻¹) := h
    _ = |x| ^ 10 * (11 / 36288000) := by
        simp [Nat.factorial]
        norm_num

/-- Bounds on the cosine at two rational points either side of `arctan (√2/√3)`. -/
theorem cos_sq_bounds :
    3 / 5 < Real.cos (6847185 / 10000000) ^ 2 ∧ Real.cos (6847194 / 10000000) ^ 2 < 3 / 5 ∧
    0 < Real.cos (6847194 / 10000000) := by
  have h1 := cos_taylor_bound (x := 6847185 / 10000000) (by rw [abs_le]; constructor <;> norm_num)
  have h2 := cos_taylor_bound (x := 6847194 / 10000000) (by rw [abs_le]; constructor <;> norm_num)
  rw [abs_le] at h1 h2
  rw [abs_of_pos (by norm_num : (0 : ℝ) < 6847185 / 10000000)] at h1
  rw [abs_of_pos (by norm_num : (0 : ℝ) < 6847194 / 10000000)] at h2
  have l1 : (7745971 / 10000000 : ℝ) < Real.cos (6847185 / 10000000) := by
    have := h1.1
    norm_num at this ⊢
    linarith
  have u2 : Real.cos (6847194 / 10000000) < (7745966 / 10000000 : ℝ) := by
    have := h2.2
    norm_num at this ⊢
    linarith
  have l2 : (7 / 10 : ℝ) < Real.cos (6847194 / 10000000) := by
    have := h2.1
    norm_num at this ⊢
    linarith
  refine ⟨?_, ?_, by linarith⟩
  · nlinarith
  · nlinarith

/-- The angle `arctan (√2/√3)` in degrees, to four decimal places: `39.2315`. -/
theorem arctan_sqrt_two_div_sqrt_three_deg :
    39.23145 < Real.arctan (Real.sqrt 2 / Real.sqrt 3) * 180 / Real.pi ∧
    Real.arctan (Real.sqrt 2 / Real.sqrt 3) * 180 / Real.pi < 39.23155 := by
  obtain ⟨hc1, hc2, hpos2⟩ := cos_sq_bounds
  have hpi := Real.pi_pos
  have hpl := Real.pi_gt_d6
  have hpu := Real.pi_lt_d6
  have hx0 : 0 < Real.sqrt 2 / Real.sqrt 3 := by positivity
  have hxsq : (Real.sqrt 2 / Real.sqrt 3) ^ 2 = 2 / 3 := by
    rw [div_pow, Real.sq_sqrt (by norm_num), Real.sq_sqrt (by norm_num)]
  -- the two rational angles, in radians
  have ha1 : (-(Real.pi / 2) < (6847185 / 10000000 : ℝ)) ∧ (6847185 / 10000000 : ℝ) < Real.pi / 2 := by
    constructor <;> linarith
  have ha2 : (-(Real.pi / 2) < (6847194 / 10000000 : ℝ)) ∧ (6847194 / 10000000 : ℝ) < Real.pi / 2 := by
    constructor <;> linarith
  have hcos1 : 0 < Real.cos (6847185 / 10000000) := Real.cos_pos_of_mem_Ioo ⟨ha1.1, ha1.2⟩
  have htan1 : Real.tan (6847185 / 10000000) < Real.sqrt 2 / Real.sqrt 3 := by
    have hinv := Real.inv_one_add_tan_sq hcos1.ne'
    have htpos : 0 ≤ Real.tan (6847185 / 10000000) :=
      (Real.tan_pos_of_pos_of_lt_pi_div_two (by norm_num) ha1.2).le
    have h1t : 0 < 1 + Real.tan (6847185 / 10000000) ^ 2 := by positivity
    have : Real.tan (6847185 / 10000000) ^ 2 < 2 / 3 := by
      have h := hinv ▸ hc1
      rw [lt_inv_comm₀ (by norm_num) h1t] at h
      norm_num at h
      linarith
    rw [← hxsq] at this
    exact lt_of_pow_lt_pow_left₀ 2 hx0.le this
  have htan2 : Real.sqrt 2 / Real.sqrt 3 < Real.tan (6847194 / 10000000) := by
    have hinv := Real.inv_one_add_tan_sq hpos2.ne'
    have htpos : 0 ≤ Real.tan (6847194 / 10000000) :=
      (Real.tan_pos_of_pos_of_lt_pi_div_two (by norm_num) ha2.2).le
    have h1t : 0 < 1 + Real.tan (6847194 / 10000000) ^ 2 := by positivity
    have : 2 / 3 < Real.tan (6847194 / 10000000) ^ 2 := by
      have h := hinv ▸ hc2
      rw [inv_lt_comm₀ h1t (by norm_num)] at h
      norm_num at h
      linarith
    rw [← hxsq] at this
    exact lt_of_pow_lt_pow_left₀ 2 htpos this
  have hl : (6847185 / 10000000 : ℝ) < Real.arctan (Real.sqrt 2 / Real.sqrt 3) := by
    have := Real.arctan_strictMono htan1
    rwa [Real.arctan_tan ha1.1 ha1.2] at this
  have hu : Real.arctan (Real.sqrt 2 / Real.sqrt 3) < (6847194 / 10000000 : ℝ) := by
    have := Real.arctan_strictMono htan2
    rwa [Real.arctan_tan ha2.1 ha2.2] at this
  constructor
  · rw [lt_div_iff₀ hpi]
    norm_num
    nlinarith
  · rw [div_lt_iff₀ hpi]
    norm_num
    nlinarith


/-! ## Properties of the per-pixel angles -/

theorem overflowAt_le_1e308_mul_pi :
    Dbl.overflowAt ≤ (((10 : NNReal) ^ 308 : NNReal) : ℝ) * Real.pi := by
  have h3 := Real.pi_gt_three
  have h : Dbl.overflowAt ≤ (10 : ℝ) ^ 308 * 3 := by norm_num [Dbl.overflowAt]
  have hp : (0 : ℝ) < (10 : ℝ) ^ 308 := by positivity
  push_cast
  nlinarith

theorem pixel_dzdx_nan_slope : (pixelLocals Dbl.nan).dzdx = Dbl.nan :=
  (pixel_dzdx_cases Dbl.nan).2 (Or.inl rfl)

theorem pixel_dzdx_1e308 : (pixelLocals (Dbl.lit (10 ^ 308))).dzdx = Dbl.nan :=
  (pixel_dzdx_cases (Dbl.lit (10 ^ 308))).2
    (Or.inr (Or.inr ⟨false, 10 ^ 308, rfl, overflowAt_le_1e308_mul_pi⟩))

/-- Counterexample to claim C2 as stated. For a NaN slope, and for the finite slope `1e308`,
whose product with `M_PI` overflows, the orientation and the projection angle are NaN: they
lie neither in `[0, 360)` nor in `[0, 90]`. -/
theorem angles_are_nan_at_nan_and_at_1e308 :
    (pixelLocals Dbl.nan).orientation = Dbl.nan ∧
    (pixelLocals Dbl.nan).slopeAngle = Dbl.nan ∧
    (pixelLocals (Dbl.lit (10 ^ 308))).orientation = Dbl.nan ∧
    (pixelLocals (Dbl.lit (10 ^ 308))).slopeAngle = Dbl.nan ∧
    ¬ (∃ o : ℝ, (pixelLocals (Dbl.lit (10 ^ 308))).orientation.toReal? = some o ∧
        0 ≤ o ∧ o < 360) ∧
    ¬ (∃ p : ℝ, (pixelLocals (Dbl.lit (10 ^ 308))).slopeAngle.toReal? = some p ∧
        0 ≤ p ∧ p ≤ 90) := by
  obtain ⟨-, -, -, a1, a2⟩ := pixel_of_nan Dbl.tan Dbl.nan pixel_dzdx_nan_slope
  obtain ⟨-, -, -, b1, b2⟩ := pixel_of_nan Dbl.tan (Dbl.lit (10 ^ 308)) pixel_dzdx_1e308
  have b1' : (pixelLocals (Dbl.lit (10 ^ 308))).slopeAngle = Dbl.nan := b1
  have b2' : (pixelLocals (Dbl.lit (10 ^ 308))).orientation = Dbl.nan := b2
  refine ⟨a2, a1, b2', b1', ?_, ?_⟩
  · rintro ⟨o, ho, -⟩
    rw [b2'] at ho
    exact Option.noConfusion ho
  · rintro ⟨p, hp, -⟩
    rw [b1'] at hp
    exact Option.noConfusion hp

/-- Claim C2, amended. Whatever `std::tan` returns: when the gradient is finite, the
orientation (the angle `atan2(normalY, normalX)` in degrees, plus 360 when that is
negative) is a finite value in `[0, 360)` and the projection angle a finite value in
`[0, 90]`; when the gradient is NaN or infinite, both angles are NaN. With the exact tangent
the first case is that of every finite slope whose product with `M_PI` does not overflow,
the second that of every other slope: NaN, infinite, or finite with an overflowing
product. -/
theorem orientation_and_projection_in_range (tanFn : Dbl → Dbl) (slope : Dbl) :
    (pixelLocalsWith tanFn slope).orientation0 =
      Dbl.atan2 (pixelLocalsWith tanFn slope).normalY (pixelLocalsWith tanFn slope).normalX
        * Dbl.lit 180 / M_PI ∧
    (pixelLocalsWith tanFn slope).orientation =
      (if Dbl.lt (pixelLocalsWith tanFn slope).orientation0 (Dbl.lit 0)
        then (pixelLocalsWith tanFn slope).orientation0 + Dbl.lit 360
        else (pixelLocalsWith tanFn slope).orientation0) ∧
    ((∃ n m, (pixelLocalsWith tanFn slope).dzdx = Dbl.fin n m) →
      (∃ o : ℝ, (pixelLocalsWith tanFn slope).orientation.toReal? = some o ∧
        0 ≤ o ∧ o < 360) ∧
      (∃ p : ℝ, (pixelLocalsWith tanFn slope).slopeAngle.toReal? = some p ∧
        0 ≤ p ∧ p ≤ 90)) ∧
    (((pixelLocalsWith tanFn slope).dzdx = Dbl.nan ∨
        ∃ ν, (pixelLocalsWith tanFn slope).dzdx = Dbl.inf ν) →
      (pixelLocalsWith tanFn slope).orientation = Dbl.nan ∧
      (pixelLocalsWith tanFn slope).slopeAngle = Dbl.nan) ∧
    (∀ n m, slope = Dbl.fin n m → (m : ℝ) * Real.pi < Dbl.overflowAt →
      (∃ o : ℝ, (pixelLocals slope).orientation.toReal? = some o ∧ 0 ≤ o ∧ o < 360) ∧
      (∃ p : ℝ, (pixelLocals slope).slopeAngle.toReal? = some p ∧ 0 ≤ p ∧ p ≤ 90)) ∧
    ((slope = Dbl.nan ∨ (∃ ν, slope = Dbl.inf ν) ∨
        ∃ n m, slope = Dbl.fin n m ∧ Dbl.overflowAt ≤ (m : ℝ) * Real.pi) →
      (pixelLocals slope).orientation = Dbl.nan ∧
      (pixelLocals slope).slopeAngle = Dbl.nan) := by
  have fin_case : ∀ (f : Dbl → Dbl) (n : Bool) (m : NNReal),
      (pixelLocalsWith f slope).dzdx = Dbl.fin n m →
      (∃ o : ℝ, (pixelLocalsWith f slope).orientation.toReal? = some o ∧ 0 ≤ o ∧ o < 360) ∧
      (∃ p : ℝ, (pixelLocalsWith f slope).slopeAngle.toReal? = some p ∧ 0 ≤ p ∧ p ≤ 90) := by
    intro f n m h
    obtain ⟨p, hp, hp0, hp45⟩ := pixel_slopeAngle_of_fin f slope n m h
    obtain ⟨c1, c2, c3, c4⟩ := pixel_orientation_of_fin f slope n m h
    refine ⟨?_, p, hp, hp0, by linarith⟩
    by_cases hz : m = 0 ∨ Dbl.overflowAt ≤ ((m * m + m * m + 1 : NNReal) : ℝ)
    · cases n
      · exact ⟨180, (c1 hz rfl).2, by norm_num, by norm_num⟩
      · exact ⟨0, (c2 hz rfl).2, by norm_num, by norm_num⟩
    · have hm : m ≠ 0 := fun h0 => hz (Or.inl h0)
      have hno : ((m * m + m * m + 1 : NNReal) : ℝ) < Dbl.overflowAt :=
        not_le.mp (fun ho => hz (Or.inr ho))
      cases n
      · exact ⟨225, (c3 hm hno rfl).2, by norm_num, by norm_num⟩
      · exact ⟨45, (c4 hm hno rfl).2, by norm_num, by norm_num⟩
  have nan_case : ∀ (f : Dbl → Dbl),
      ((pixelLocalsWith f slope).dzdx = Dbl.nan ∨
        ∃ ν, (pixelLocalsWith f slope).dzdx = Dbl.inf ν) →
      (pixelLocalsWith f slope).orientation = Dbl.nan ∧
      (pixelLocalsWith f slope).slopeAngle = Dbl.nan := by
    rintro f (h | ⟨ν, h⟩)
    · obtain ⟨-, -, -, a, b⟩ := pixel_of_nan f slope h
      exact ⟨b, a⟩
    · obtain ⟨-, -, -, a, b⟩ := pixel_of_inf f slope ν h
      exact ⟨b, a⟩
  refine ⟨rfl, rfl, ?_, nan_case tanFn, ?_, ?_⟩
  · rintro ⟨n, m, h⟩
    exact fin_case tanFn n m h
  · intro n m hs hm
    obtain ⟨-, n1, m1, h⟩ := (pixel_dzdx_cases slope).1 n m hs hm
    exact fin_case Dbl.tan n1 m1 h
  · intro hs
    exact nan_case Dbl.tan (Or.inl ((pixel_dzdx_cases slope).2 hs))


theorem signed_not (n : Bool) (m : NNReal) : Dbl.signed (!n) m = -Dbl.signed n m := by
  cases n <;> simp [Dbl.signed]

theorem pixel_normal0_of_fin (tanFn : Dbl → Dbl) (s : Dbl) (n : Bool) (m : NNReal)
    (h : (pixelLocalsWith tanFn s).dzdx = Dbl.fin n m) :
    (pixelLocalsWith tanFn s).normalX0.toReal? = some (-Dbl.signed n m) ∧
    (pixelLocalsWith tanFn s).normalY0.toReal? = some (-Dbl.signed n m) ∧
    (pixelLocalsWith tanFn s).normalZ0.toReal? = some 1 := by
  have hx : (pixelLocalsWith tanFn s).normalX0 = -(pixelLocalsWith tanFn s).dzdx := rfl
  have hy : (pixelLocalsWith tanFn s).normalY0 = -(pixelLocalsWith tanFn s).dzdx := rfl
  have hz : (pixelLocalsWith tanFn s).normalZ0 = Dbl.lit 1 := rfl
  rw [hx, hy, hz, h, Dbl.neg_fin, Dbl.toReal?_fin, signed_not, Dbl.toReal?_lit]
  simp

/-- Counterexample to claim C9 as stated. For the slope `+0.0` both gradient components
equal `t = tan(0) = 0`, yet the orientation is `180` degrees and not `0`. -/
theorem orientation_for_zero_tangent_can_be_180 :
    (pixelLocals (Dbl.lit 0)).dzdx.toReal? = some 0 ∧
    (pixelLocals (Dbl.lit 0)).dzdy.toReal? = some 0 ∧
    (pixelLocals (Dbl.lit 0)).orientation.toReal? = some 180 ∧
    ¬ (pixelLocals (Dbl.lit 0)).orientation.toReal? = some 0 := by
  have hd : (pixelLocals (Dbl.lit 0)).dzdx = Dbl.fin false 0 := pixel_dzdx_zero false
  have hd' : (pixelLocals (Dbl.lit 0)).dzdy = Dbl.fin false 0 := hd
  obtain ⟨c1, -, -, -⟩ := pixel_orientation_of_fin Dbl.tan (Dbl.lit 0) false 0 hd
  have ho : (pixelLocals (Dbl.lit 0)).orientation.toReal? = some 180 := (c1 (Or.inl rfl) rfl).2
  refine ⟨by rw [hd]; simp [Dbl.toReal?, Dbl.signed], by rw [hd']; simp [Dbl.toReal?, Dbl.signed],
    ho, ?_⟩
  rw [ho]
  norm_num

/-- Claim C9, amended. Whatever `std::tan` returns, both gradient components are the same
double `t`, and the orientation is decided by `t` alone: `225` degrees when `t > 0` and `45`
degrees when `t < 0` (for finite `t` with `2·t² + 1` not overflowing), `180` degrees when
`t` is `+0.0`, `0` degrees when `t` is `-0.0`, and NaN when `t` is NaN or infinite. For
every finite `t` it is one of `0`, `45`, `180`, `225`. -/
theorem orientation_decided_by_sign_of_tangent (tanFn : Dbl → Dbl) (slope : Dbl) :
    (pixelLocalsWith tanFn slope).dzdy = (pixelLocalsWith tanFn slope).dzdx ∧
    (∀ m : NNReal, (pixelLocalsWith tanFn slope).dzdx = Dbl.fin false m → m ≠ 0 →
      ((m * m + m * m + 1 : NNReal) : ℝ) < Dbl.overflowAt →
      (pixelLocalsWith tanFn slope).orientation.toReal? = some 225) ∧
    (∀ m : NNReal, (pixelLocalsWith tanFn slope).dzdx = Dbl.fin true m → m ≠ 0 →
      ((m * m + m * m + 1 : NNReal) : ℝ) < Dbl.overflowAt →
      (pixelLocalsWith tanFn slope).orientation.toReal? = some 45) ∧
    ((pixelLocalsWith tanFn slope).dzdx = Dbl.fin false 0 →
      (pixelLocalsWith tanFn slope).orientation.toReal? = some 180) ∧
    ((pixelLocalsWith tanFn slope).dzdx = Dbl.fin true 0 →
      (pixelLocalsWith tanFn slope).orientation.toReal? = some 0) ∧
    (((pixelLocalsWith tanFn slope).dzdx = Dbl.nan ∨
        ∃ ν, (pixelLocalsWith tanFn slope).dzdx = Dbl.inf ν) →
      (pixelLocalsWith tanFn slope).orientation = Dbl.nan) ∧
    (∀ n m, (pixelLocalsWith tanFn slope).dzdx = Dbl.fin n m →
      (pixelLocalsWith tanFn slope).orientation.toReal? = some 0 ∨
      (pixelLocalsWith tanFn slope).orientation.toReal? = some 45 ∨
      (pixelLocalsWith tanFn slope).orientation.toReal? = some 180 ∨
      (pixelLocalsWith tanFn slope).orientation.toReal? = some 225) := by
  refine ⟨rfl, ?_, ?_, ?_, ?_, ?_, ?_⟩
  · intro m h hm hno
    exact ((pixel_orientation_of_fin tanFn slope false m h).2.2.1 hm hno rfl).2
  · intro m h hm hno
    exact ((pixel_orientation_of_fin tanFn slope true m h).2.2.2 hm hno rfl).2
  · intro h
    exact ((pixel_orientation_of_fin tanFn slope false 0 h).1 (Or.inl rfl) rfl).2
  · intro h
    exact ((pixel_orientation_of_fin tanFn slope true 0 h).2.1 (Or.inl rfl) rfl).2
  · rintro (h | ⟨ν, h⟩)
    · exact (pixel_of_nan tanFn slope h).2.2.2.2
    · exact (pixel_of_inf tanFn slope ν h).2.2.2.2
  · intro n m h
    obtain ⟨c1, c2, c3, c4⟩ := pixel_orientation_of_fin tanFn slope n m h
    by_cases hz : m = 0 ∨ Dbl.overflowAt ≤ ((m * m + m * m + 1 : NNReal) : ℝ)
    · cases n
      · exact Or.inr (Or.inr (Or.inl (c1 hz rfl).2))
      · exact Or.inl (c2 hz rfl).2
    · have hm : m ≠ 0 := fun h0 => hz (Or.inl h0)
      have hno : ((m * m + m * m + 1 : NNReal) : ℝ) < Dbl.overflowAt :=
        not_le.mp (fun ho => hz (Or.inr ho))
      cases n
      · exact Or.inr (Or.inr (Or.inr (c3 hm hno rfl).2))
      · exact Or.inr (Or.inl (c4 hm hno rfl).2)


theorem no_overflow_at_one :
    (((1 : NNReal) * 1 + 1 * 1 + 1 : NNReal) : ℝ) < Dbl.overflowAt := by
  have := Dbl.overflowAt_gt
  push_cast
  linarith

theorem no_overflow_at_zero :
    (((0 : NNReal) * 0 + 0 * 0 + 1 : NNReal) : ℝ) < Dbl.overflowAt := by
  have := Dbl.overflowAt_gt
  push_cast
  linarith

/-- An instance of claim C2, amended: the slope of 45 degrees. -/
theorem orientation_and_projection_in_range_at_45 :
    (∃ o : ℝ, (pixelLocals (Dbl.lit 45)).orientation.toReal? = some o ∧ 0 ≤ o ∧ o < 360) ∧
    (∃ p : ℝ, (pixelLocals (Dbl.lit 45)).slopeAngle.toReal? = some p ∧ 0 ≤ p ∧ p ≤ 90) :=
  (orientation_and_projection_in_range Dbl.tan (Dbl.lit 45)).2.2.1 ⟨false, 1, pixel_dzdx_45⟩

/-- An instance of claim C9, amended: the slope of 45 degrees, where the gradient is
positive. -/
theorem orientation_decided_by_sign_of_tangent_at_45 :
    (pixelLocals (Dbl.lit 45)).orientation.toReal? = some 225 :=
  (orientation_decided_by_sign_of_tangent Dbl.tan (Dbl.lit 45)).2.1 1 pixel_dzdx_45
    one_ne_zero no_overflow_at_one

theorem pixel_slopeAngle_45 :
    (pixelLocals (Dbl.lit 45)).slopeAngle.toReal? =
      some (Real.arctan (Real.sqrt 2 / Real.sqrt 3) * 180 / Real.pi) := by
  have h := pixel_slopeAngle_formula Dbl.tan (Dbl.lit 45) false 1 pixel_dzdx_45
    no_overflow_at_one
  have e : (2 * Dbl.signed false 1 ^ 2 / (1 + 2 * Dbl.signed false 1 ^ 2)) = 2 / 3 := by
    simp [Dbl.signed]; norm_num
  rw [e, Real.sqrt_div (by norm_num)] at h
  exact h

/-- Counterexample to claim C3 as stated. For a slope of 45 degrees the projection angle,
which is `atan(√2/√3)·180/π`, is below 45 degrees and therefore not approximately
54.7356. -/
theorem slope_45_projection_angle_is_not_54_7356 :
    ∃ p : ℝ, (pixelLocals (Dbl.lit 45)).slopeAngle.toReal? = some p ∧
      p = Real.arctan (Real.sqrt 2 / Real.sqrt 3) * 180 / Real.pi ∧
      p < 45 ∧ ¬ |p - 54.7356| < 1 := by
  obtain ⟨p, hp, -, hp45⟩ := pixel_slopeAngle_of_fin Dbl.tan (Dbl.lit 45) false 1 pixel_dzdx_45
  have hp' : (pixelLocals (Dbl.lit 45)).slopeAngle.toReal? = some p := hp
  refine ⟨p, hp', ?_, hp45, ?_⟩
  · rw [pixel_slopeAngle_45] at hp'
    exact (Option.some.inj hp').symm
  · rw [abs_lt]
    rintro ⟨h1, -⟩
    norm_num at h1
    linarith

/-- Claim C3, amended. For a slope of 45 degrees: `dzdx = dzdy = 1`; the normal before the
division is `(-1, -1, 1)` and its length is `√3`; the projection angle is
`atan(√2/√3)·180/π`, which is 39.2315 degrees to four decimal places; the orientation is
`atan2(-1, -1)·180/π + 360 = -135 + 360 = 225` degrees. -/
theorem slope_45_known_value :
    (pixelLocals (Dbl.lit 45)).dzdx.toReal? = some 1 ∧
    (pixelLocals (Dbl.lit 45)).dzdy.toReal? = some 1 ∧
    (pixelLocals (Dbl.lit 45)).normalX0.toReal? = some (-1) ∧
    (pixelLocals (Dbl.lit 45)).normalY0.toReal? = some (-1) ∧
    (pixelLocals (Dbl.lit 45)).normalZ0.toReal? = some 1 ∧
    (pixelLocals (Dbl.lit 45)).length.toReal? = some (Real.sqrt 3) ∧
    (pixelLocals (Dbl.lit 45)).slopeAngle.toReal? =
      some (Real.arctan (Real.sqrt 2 / Real.sqrt 3) * 180 / Real.pi) ∧
    39.23145 < Real.arctan (Real.sqrt 2 / Real.sqrt 3) * 180 / Real.pi ∧
    Real.arctan (Real.sqrt 2 / Real.sqrt 3) * 180 / Real.pi < 39.23155 ∧
    (Dbl.atan2 (-Dbl.lit 1) (-Dbl.lit 1) * Dbl.lit 180 / M_PI).toReal? = some (-135) ∧
    (pixelLocals (Dbl.lit 45)).orientation0.toReal? = some (-135) ∧
    (pixelLocals (Dbl.lit 45)).orientation.toReal? = some (-135 + 360) ∧
    (pixelLocals (Dbl.lit 45)).orientation.toReal? = some 225 := by
  have hd := pixel_dzdx_45
  have hd' : (pixelLocals (Dbl.lit 45)).dzdy = Dbl.fin false 1 := hd
  obtain ⟨n1, n2, n3⟩ := pixel_normal0_of_fin Dbl.tan (Dbl.lit 45) false 1 hd
  obtain ⟨hl, -⟩ := pixel_normal_of_fin Dbl.tan (Dbl.lit 45) false 1 hd no_overflow_at_one
  obtain ⟨b1, b2⟩ := arctan_sqrt_two_div_sqrt_three_deg
  obtain ⟨o0, o1⟩ := (pixel_orientation_of_fin Dbl.tan (Dbl.lit 45) false 1 hd).2.2.1
    one_ne_zero no_overflow_at_one rfl
  have hs : Dbl.signed false 1 = 1 := by simp [Dbl.signed]
  rw [hs] at n1 n2
  have ha : (Dbl.atan2 (-Dbl.lit 1) (-Dbl.lit 1) * Dbl.lit 180 / M_PI).toReal? =
      some (-135) := by
    have h1 : -Dbl.lit 1 = Dbl.fin true 1 := rfl
    have hle : ((3 * NNReal.pi / 4 : NNReal) : ℝ) ≤ Real.pi := by
      simp only [NNReal.coe_div, NNReal.coe_mul, NNReal.coe_real_pi, NNReal.coe_ofNat]
      linarith [Real.pi_pos]
    rw [h1, Dbl.atan2_self_fin, if_neg one_ne_zero, if_pos rfl, Dbl.mul_180_div_pi true hle,
      Dbl.toReal?_fin]
    congr 1
    simp only [Dbl.signed, if_true, NNReal.coe_div, NNReal.coe_mul, NNReal.coe_real_pi,
      NNReal.coe_ofNat]
    have := Real.pi_ne_zero
    field_simp
    ring
  refine ⟨by rw [hd]; simp [Dbl.toReal?, Dbl.signed], by rw [hd']; simp [Dbl.toReal?, Dbl.signed],
    n1, n2, n3, ?_, pixel_slopeAngle_45, b1, b2, ha, o0, ?_, o1⟩
  · have hl' : (pixelLocals (Dbl.lit 45)).length = _ := hl
    rw [hl', Dbl.toReal?_fin]
    simp only [Dbl.signed, Bool.false_eq_true, if_false, Real.coe_sqrt]
    congr 2
    push_cast
    norm_num
  · have o1' : (pixelLocals (Dbl.lit 45)).orientation.toReal? = some 225 := o1
    rw [o1']; norm_num

/-- Counterexample to claim C4 as stated. For the slope `+0.0` the angle
`atan2(normalY, normalX)` is `-π`, not `0`: the orientation before the adjustment is `-180`,
which is below zero, so 360 is added and the orientation is `180`, not `0`. -/
theorem zero_slope_orientation_is_not_zero :
    (Dbl.atan2 (pixelLocals (Dbl.lit 0)).normalY (pixelLocals (Dbl.lit 0)).normalX).toReal?
      = some (-Real.pi) ∧
    (pixelLocals (Dbl.lit 0)).orientation0.toReal? = some (-180) ∧
    Dbl.lt (pixelLocals (Dbl.lit 0)).orientation0 (Dbl.lit 0) ∧
    (pixelLocals (Dbl.lit 0)).orientation.toReal? = some 180 ∧
    ¬ (pixelLocals (Dbl.lit 0)).orientation.toReal? = some 0 := by
  have hd : (pixelLocals (Dbl.lit 0)).dzdx = Dbl.fin false 0 := pixel_dzdx_zero false
  obtain ⟨-, hx, -, -, -⟩ := pixel_normal_of_fin Dbl.tan (Dbl.lit 0) false 0 hd
    no_overflow_at_zero
  have hx' : (pixelLocals (Dbl.lit 0)).normalX = Dbl.fin true 0 := by
    have : (pixelLocals (Dbl.lit 0)).normalX = _ := hx
    rw [this]; simp
  have hy' : (pixelLocals (Dbl.lit 0)).normalY = Dbl.fin true 0 := hx'
  obtain ⟨o0, o1⟩ := (pixel_orientation_of_fin Dbl.tan (Dbl.lit 0) false 0 hd).1
    (Or.inl rfl) rfl
  have o0' : (pixelLocals (Dbl.lit 0)).orientation0.toReal? = some (-180) := o0
  have o1' : (pixelLocals (Dbl.lit 0)).orientation.toReal? = some 180 := o1
  refine ⟨?_, o0', ?_, o1', ?_⟩
  · rw [hx', hy', Dbl.atan2_self_fin]
    simp [Dbl.toReal?, Dbl.signed]
  · cases ho : (pixelLocals (Dbl.lit 0)).orientation0 with
    | nan => rw [ho] at o0'; exact Option.noConfusion o0'
    | inf ν => rw [ho] at o0'; exact Option.noConfusion o0'
    | fin ν v =>
      rw [ho, Dbl.toReal?_fin] at o0'
      have hv : Dbl.signed ν v = -180 := Option.some.inj o0'
      show Dbl.signed ν v < Dbl.signed false 0
      rw [hv]; simp [Dbl.signed]
  · rw [o1']; norm_num

/-- Claim C4, amended. For the slope `+0.0`: both gradient components are `+0.0`; the unit
normal is `(-0.0, -0.0, 1)`, of real value `(0, 0, 1)`; the projection angle is `0`;
`atan2(-0.0, -0.0)` is `-π`, so the orientation is `-180` before the adjustment and, the
adjustment being applied, `180` after it. For the slope `-0.0` the normal is
`(+0.0, +0.0, 1)` and the orientation is `0`. -/
theorem zero_slope_known_value :
    (pixelLocals (Dbl.lit 0)).dzdx = Dbl.fin false 0 ∧
    (pixelLocals (Dbl.lit 0)).dzdy = Dbl.fin false 0 ∧
    (pixelLocals (Dbl.lit 0)).normalX = Dbl.fin true 0 ∧
    (pixelLocals (Dbl.lit 0)).normalY = Dbl.fin true 0 ∧
    (pixelLocals (Dbl.lit 0)).normalZ = Dbl.fin false 1 ∧
    (pixelLocals (Dbl.lit 0)).normalX.toReal? = some 0 ∧
    (pixelLocals (Dbl.lit 0)).normalY.toReal? = some 0 ∧
    (pixelLocals (Dbl.lit 0)).normalZ.toReal? = some 1 ∧
    (pixelLocals (Dbl.lit 0)).slopeAngle.toReal? = some 0 ∧
    (pixelLocals (Dbl.lit 0)).orientation0.toReal? = some (-180) ∧
    (pixelLocals (Dbl.lit 0)).orientation.toReal? = some 180 ∧
    (pixelLocals (Dbl.fin true 0)).normalX = Dbl.fin false 0 ∧
    (pixelLocals (Dbl.fin true 0)).normalY = Dbl.fin false 0 ∧
    (pixelLocals (Dbl.fin true 0)).normalZ = Dbl.fin false 1 ∧
    (pixelLocals (Dbl.fin true 0)).orientation.toReal? = some 0 := by
  have normals : ∀ n : Bool, ∀ s : Dbl, (pixelLocals s).dzdx = Dbl.fin n 0 →
      (pixelLocals s).normalX = Dbl.fin (!n) 0 ∧ (pixelLocals s).normalY = Dbl.fin (!n) 0 ∧
      (pixelLocals s).normalZ = Dbl.fin false 1 := by
    intro n s hd
    obtain ⟨-, hx, hz, -, -⟩ := pixel_normal_of_fin Dbl.tan s n 0 hd no_overflow_at_zero
    have hx' : (pixelLocals s).normalX = Dbl.fin (!n) 0 := by
      have : (pixelLocals s).normalX = _ := hx
      rw [this]; simp
    have hz' : (pixelLocals s).normalZ = Dbl.fin false 1 := by
      have : (pixelLocals s).normalZ = _ := hz
      rw [this]; simp
    exact ⟨hx', hx', hz'⟩
  have hd : (pixelLocals (Dbl.lit 0)).dzdx = Dbl.fin false 0 := pixel_dzdx_zero false
  have hdn : (pixelLocals (Dbl.fin true 0)).dzdx = Dbl.fin true 0 := pixel_dzdx_zero true
  obtain ⟨hX, hY, hZ⟩ := normals false (Dbl.lit 0) hd
  obtain ⟨hXn, hYn, hZn⟩ := normals true (Dbl.fin true 0) hdn
  obtain ⟨o0, o1⟩ := (pixel_orientation_of_fin Dbl.tan (Dbl.lit 0) false 0 hd).1
    (Or.inl rfl) rfl
  obtain ⟨-, o1n⟩ := (pixel_orientation_of_fin Dbl.tan (Dbl.fin true 0) true 0 hdn).2.1
    (Or.inl rfl) rfl
  have hsa : (pixelLocals (Dbl.lit 0)).slopeAngle.toReal? = some 0 := by
    have h := pixel_slopeAngle_formula Dbl.tan (Dbl.lit 0) false 0 hd no_overflow_at_zero
    have h' : (pixelLocals (Dbl.lit 0)).slopeAngle.toReal? = _ := h
    rw [h']; simp [Dbl.signed]
  simp only [Bool.not_false, Bool.not_true] at hX hY hXn hYn
  exact ⟨hd, hd, hX, hY, hZ, by rw [hX]; simp [Dbl.toReal?, Dbl.signed],
    by rw [hY]; simp [Dbl.toReal?, Dbl.signed], by rw [hZ]; simp [Dbl.toReal?, Dbl.signed],
    hsa, o0, o1, hXn, hYn, hZn, o1n⟩

/-! ## Grid traversal -/

/-- Two nested counting loops, rows outside and columns inside, visit the cells in
row-major order. -/
theorem flatMap_range_row_major {α : Type} (f : Nat → Nat → α) (w h : Nat) :
    (List.range h).flatMap (fun y => (List.range w).map (fun x => f y x)) =
      (List.range (w * h)).map (fun k => f (k / w) (k % w)) := by
  induction h with
  | zero => simp
  | succ h ih =>
    rw [List.range_succ, List.flatMap_append, ih, Nat.mul_succ, List.range_add, List.map_append,
      List.map_map]
    congr 1
    simp only [List.flatMap_cons, List.flatMap_nil, List.append_nil]
    apply List.map_congr_left
    intro x hx
    have hx' : x < w := List.mem_range.mp hx
    have hw : 0 < w := Nat.lt_of_le_of_lt (Nat.zero_le _) hx'
    simp only [Function.comp]
    rw [Nat.mul_add_div hw, Nat.div_eq_of_lt hx', Nat.add_zero, Nat.mul_add_mod,
      Nat.mod_eq_of_lt hx']

theorem wrapInt32_of_range {z : Int} (h0 : 0 ≤ z) (h1 : z < 2 ^ 31) : wrapInt32 z = z := by
  unfold wrapInt32
  rw [Int.emod_eq_of_lt (by linarith) (by linarith)]
  ring

/-- The output as one pass over the positions `0 ..< width * height`. -/
theorem calculateOrthogonalProjection_eq_map (slopeData : Int → Dbl) (w h : Nat) :
    calculateOrthogonalProjection slopeData w h =
      (List.range (w * h)).map (fun k => pixelRecord slopeData w (k / w) (k % w)) := by
  unfold calculateOrthogonalProjection
  simp only [Int.toNat_ofNat]
  exact flatMap_range_row_major (fun y x => pixelRecord slopeData w y x) w h

theorem calculateOrthogonalProjection_getElem? (slopeData : Int → Dbl) (w h k : Nat) :
    (calculateOrthogonalProjection slopeData w h)[k]? =
      if k < w * h then some (pixelRecord slopeData w (k / w) (k % w)) else none := by
  rw [calculateOrthogonalProjection_eq_map, List.getElem?_map]
  split
  · rename_i hk
    rw [List.getElem?_range hk]
    rfl
  · rename_i hk
    rw [List.getElem?_eq_none (by simpa using hk)]
    rfl

/-- The index `y * width + x` is computed without wrap-around when the grid has at most
`2 ^ 31` cells. -/
theorem index_no_wrap (w h k : Nat) (hk : k < w * h) (hsize : w * h ≤ 2147483648) :
    wrapInt32 (wrapInt32 (((k / w : Nat) : Int) * (w : Int)) + ((k % w : Nat) : Int)) =
      ((k / w : Nat) : Int) * (w : Int) + ((k % w : Nat) : Int) := by
  have hdm : k / w * w + k % w = k := by rw [Nat.mul_comm]; exact Nat.div_add_mod k w
  have hk31 : k < 2147483648 := lt_of_lt_of_le hk hsize
  have e1 : (((k / w : Nat) : Int) * (w : Int)) = ((k / w * w : Nat) : Int) := by push_cast; ring
  have e2 : ((k / w * w : Nat) : Int) + ((k % w : Nat) : Int) = ((k : Nat) : Int) := by
    exact_mod_cast hdm
  have hle : k / w * w ≤ k := Nat.le.intro hdm
  have hlt : k / w * w < 2147483648 := lt_of_le_of_lt hle hk31
  have b1 : ((k / w * w : Nat) : Int) < 2 ^ 31 := by
    have : ((k / w * w : Nat) : Int) < 2147483648 := by exact_mod_cast hlt
    simpa using this
  have b2 : ((k : Nat) : Int) < 2 ^ 31 := by
    have : ((k : Nat) : Int) < 2147483648 := by exact_mod_cast hk31
    simpa using this
  rw [e1, wrapInt32_of_range (Int.ofNat_nonneg _) b1, e2,
    wrapInt32_of_range (Int.ofNat_nonneg _) b2]

theorem pixelRecord_xy (slopeData : Int → Dbl) (width : Int) (y x : Nat) :
    (pixelRecord slopeData width y x).x = x ∧ (pixelRecord slopeData width y x).y = y :=
  ⟨rfl, rfl⟩

/-- Claim C6, amended. For every `width ≥ 0` and `height ≥ 0` with at most `2 ^ 31` cells (so
that every index `y * width + x` fits the `int` it is computed in) the function emits
exactly `width * height` records in row-major order: the record at position `k` has
`x = k mod width`, `y = k div width` and the slope `slopeData[y * width + x]`, its two
angles being computed from that slope alone; every pair `(x, y)` with `0 ≤ x < width` and
`0 ≤ y < height` is the pair of exactly one position. -/
theorem calculateOrthogonalProjection_row_major (slopeData : Int → Dbl) (width height : Int)
    (hw : 0 ≤ width) (hh : 0 ≤ height) (hsize : width * height ≤ 2147483648) :
    (calculateOrthogonalProjection slopeData width height).length = (width * height).toNat ∧
    (∀ k : Nat, (k : Int) < width * height →
      (calculateOrthogonalProjection slopeData width height)[k]? =
        some { x := (k : Int) % width, y := (k : Int) / width,
               slope := slopeData ((k : Int) / width * width + (k : Int) % width),
               slopeAngle := (pixelLocals
                 (slopeData ((k : Int) / width * width + (k : Int) % width))).slopeAngle,
               orientation := (pixelLocals
                 (slopeData ((k : Int) / width * width + (k : Int) % width))).orientation }) ∧
    (∀ x y : Int, 0 ≤ x → x < width → 0 ≤ y → y < height →
      ∃! k : Nat, ((calculateOrthogonalProjection slopeData width height)[k]?).map
        (fun r => (r.x, r.y)) = some (x, y)) := by
  obtain ⟨w, rfl⟩ := Int.eq_ofNat_of_zero_le hw
  obtain ⟨h, rfl⟩ := Int.eq_ofNat_of_zero_le hh
  have hsz : w * h ≤ 2147483648 := by exact_mod_cast hsize
  refine ⟨?_, ?_, ?_⟩
  · rw [calculateOrthogonalProjection_eq_map, List.length_map, List.length_range]
    rw [← Int.ofNat_mul, Int.toNat_ofNat]
  · intro k hk
    have hk' : k < w * h := by exact_mod_cast hk
    rw [calculateOrthogonalProjection_getElem?, if_pos hk']
    have hidx := index_no_wrap w h k hk' hsz
    have hd : ((k / w : Nat) : Int) = (k : Int) / (w : Int) := by push_cast; rfl
    have hm : ((k % w : Nat) : Int) = (k : Int) % (w : Int) := by push_cast; rfl
    rw [hd, hm] at hidx
    simp only [pixelRecord, hd, hm, hidx]
  · intro x y hx0 hxw hy0 hyh
    obtain ⟨xn, rfl⟩ := Int.eq_ofNat_of_zero_le hx0
    obtain ⟨yn, rfl⟩ := Int.eq_ofNat_of_zero_le hy0
    have hxw' : xn < w := by exact_mod_cast hxw
    have hyh' : yn < h := by exact_mod_cast hyh
    have hwpos : 0 < w := Nat.lt_of_le_of_lt (Nat.zero_le _) hxw'
    refine ⟨w * yn + xn, ?_, ?_⟩
    · have hlt : w * yn + xn < w * h := by
        calc w * yn + xn < w * yn + w := Nat.add_lt_add_left hxw' _
          _ = w * (yn + 1) := by ring
          _ ≤ w * h := Nat.mul_le_mul_left w hyh'
      simp only [calculateOrthogonalProjection_getElem?, if_pos hlt, Option.map_some',
        pixelRecord_xy, Nat.mul_add_div hwpos, Nat.div_eq_of_lt hxw', Nat.add_zero,
        Nat.mul_add_mod, Nat.mod_eq_of_lt hxw']
    · intro k hk
      rw [calculateOrthogonalProjection_getElem?] at hk
      by_cases hlt : k < w * h
      · simp only [if_pos hlt, Option.map_some', pixelRecord_xy, Option.some.injEq,
          Prod.mk.injEq] at hk
        have h1 : k % w = xn := by exact_mod_cast hk.1
        have h2 : k / w = yn := by exact_mod_cast hk.2
        rw [← h1, ← h2]
        exact (Nat.div_add_mod k w).symm
      · simp [if_neg hlt] at hk

/-- Counterexample to claim C6 as stated. For `width = 65536` and `height = 32769` the
position `k = 2147483648` has `k mod width = 0` and `k div width = 32768`, but the index
`32768 * 65536 + 0` wraps in `int` to `-2147483648`: the record at that position carries what
the buffer holds at `-2147483648`, not the slope of its own cell. -/
theorem row_major_slope_fails_beyond_int_range :
    (2147483648 : Int) % 65536 = 0 ∧ (2147483648 : Int) / 65536 = 32768 ∧
    ((calculateOrthogonalProjection spikeGrid 65536 32769)[2147483648]?).map
      (fun r => (r.x, r.y, r.slope)) = some (0, 32768, spikeGrid (-2147483648)) ∧
    spikeGrid (-2147483648) ≠ spikeGrid (32768 * 65536 + 0) := by
  refine ⟨by norm_num, by norm_num, ?_, ?_⟩
  · have h := calculateOrthogonalProjection_getElem? spikeGrid 65536 32769 2147483648
    rw [if_pos (by norm_num)] at h
    have hw : wrapInt32 (wrapInt32 2147483648) = -2147483648 := by
      norm_num [wrapInt32]
    norm_num at h
    rw [h]
    simp [pixelRecord, hw]
  · simp [spikeGrid, Dbl.lit]

/-- Witness for claim C6, amended: a grid of width 2 and height 3. -/
theorem calculateOrthogonalProjection_row_major_witness :
    (calculateOrthogonalProjection spikeGrid 2 3).length = ((2 : Int) * 3).toNat ∧
    (calculateOrthogonalProjection spikeGrid 2 3)[5]? =
      some { x := ((5 : Nat) : Int) % 2, y := ((5 : Nat) : Int) / 2,
             slope := spikeGrid (((5 : Nat) : Int) / 2 * 2 + ((5 : Nat) : Int) % 2),
             slopeAngle := (pixelLocals
               (spikeGrid (((5 : Nat) : Int) / 2 * 2 + ((5 : Nat) : Int) % 2))).slopeAngle,
             orientation := (pixelLocals
               (spikeGrid (((5 : Nat) : Int) / 2 * 2 + ((5 : Nat) : Int) % 2))).orientation } :=
  ⟨(calculateOrthogonalProjection_row_major spikeGrid 2 3 (by norm_num) (by norm_num)
      (by norm_num)).1,
   (calculateOrthogonalProjection_row_major spikeGrid 2 3 (by norm_num) (by norm_num)
      (by norm_num)).2.1 5 (by norm_num)⟩

end Beregner
